import Mathlib

/-
  Verification of the position-addressing, tree-filtering and canonical-ordering
  engine of the ava-webapp backend (src/backend/app/services/entity.py and
  src/backend/app/services/data_services.py).

  The Python functions operate on JSON dictionaries/lists; we embed JSON values
  as the inductive type `Json` below, with dictionaries as association lists in
  insertion order (Python 3 dicts preserve insertion order).  Python dictionary
  reads/writes that would raise (KeyError / TypeError on ill-typed data) are
  modelled as no-ops returning a default; every theorem about such code paths
  quantifies only over inputs on which the Python code is exception-free, and
  all concrete inputs used in witnesses and counterexamples are well-formed, so
  the modelled behaviour and the Python behaviour agree on everything proved.
-/

namespace Ava

inductive Json where
  | null
  | b (v : Bool)
  | n (v : Int)
  | s (v : String)
  | arr (elems : List Json)
  | obj (fields : List (String × Json))

namespace Json

mutual
def beq : Json → Json → Bool
  | .null, .null => true
  | .b x, .b y => x == y
  | .n x, .n y => x == y
  | .s x, .s y => x == y
  | .arr x, .arr y => beqL x y
  | .obj x, .obj y => beqFs x y
  | _, _ => false
def beqL : List Json → List Json → Bool
  | [], [] => true
  | x :: xs, y :: ys => beq x y && beqL xs ys
  | _, _ => false
def beqFs : List (String × Json) → List (String × Json) → Bool
  | [], [] => true
  | (k, v) :: xs, (k', v') :: ys => k == k' && beq v v' && beqFs xs ys
  | _, _ => false
end

mutual
theorem beq_iff (a b : Json) : beq a b = true ↔ a = b := by
  cases a with
  | null => cases b <;> simp [beq]
  | b x => cases b <;> simp [beq]
  | n x => cases b <;> simp [beq]
  | s x => cases b <;> simp [beq]
  | arr l =>
      cases b <;> simp [beq]
      exact beqL_iff l _
  | obj fs =>
      cases b <;> simp [beq]
      exact beqFs_iff fs _
theorem beqL_iff (a b : List Json) : beqL a b = true ↔ a = b := by
  cases a with
  | nil => cases b <;> simp [beqL]
  | cons x xs =>
      cases b with
      | nil => simp [beqL]
      | cons y ys => simp [beqL, beq_iff x y, beqL_iff xs ys]
theorem beqFs_iff (a b : List (String × Json)) : beqFs a b = true ↔ a = b := by
  cases a with
  | nil => cases b <;> simp [beqFs]
  | cons x xs =>
      obtain ⟨k, v⟩ := x
      cases b with
      | nil => simp [beqFs]
      | cons y ys =>
          obtain ⟨k', v'⟩ := y
          simp [beqFs, beq_iff v v', beqFs_iff xs ys, and_assoc]
end

instance : DecidableEq Json := fun a b =>
  decidable_of_iff (beq a b = true) (beq_iff a b)

end Json

/-- Lookup in an association list: the value of the first matching key
    (Python dicts have at most one entry per key). -/
def getFs : List (String × Json) → String → Option Json
  | [], _ => none
  | (k', v) :: fs, k => if k' == k then some v else getFs fs k

/-- Python `d[k] = v` on a dict: replace the value of an existing key in place,
    otherwise append the new key at the end (insertion order). -/
def setFs : List (String × Json) → String → Json → List (String × Json)
  | [], k, v => [(k, v)]
  | (k', v') :: fs, k, v => if k' == k then (k, v) :: fs else (k', v') :: setFs fs k v

/-- Python `d[k]` read (None-free form): `some` value for a dict containing `k`,
    otherwise `none`. -/
def jget (j : Json) (k : String) : Option Json :=
  match j with
  | .obj fs => getFs fs k
  | _ => none

/-- Python `d.get(k, default)`. -/
def jgetD (j : Json) (k : String) (d : Json) : Json :=
  (jget j k).getD d

/-- Python `k in d` for a dict (on non-dict data the Python code would raise;
    modelled as `false`). -/
def jhasK (j : Json) (k : String) : Bool :=
  (jget j k).isSome

/-- Python `d[k] = v` at the `Json` level (no-op on non-dict data, where Python
    would raise). -/
def jset (j : Json) (k : String) (v : Json) : Json :=
  match j with
  | .obj fs => .obj (setFs fs k v)
  | other => other

/-- Python iteration over a JSON list (`for x in l`); non-list data is modelled
    as an empty iteration. -/
def jitems (j : Json) : List Json :=
  match j with
  | .arr l => l
  | _ => []

/-- Python `str(value)` as applied to values read out of the JSON tree.  The
    placeholders for lists/dicts are irrelevant: every comparison in the source
    compares against a 2-digit number string or a code fragment, which no
    Python `str()` of a list/dict can equal. -/
def pyStr (o : Option Json) : String :=
  match o with
  | none => "None"
  | some .null => "None"
  | some (.b true) => "True"
  | some (.b false) => "False"
  | some (.n i) => toString i
  | some (.s v) => v
  | some (.arr _) => "[list]"
  | some (.obj _) => "{dict}"

/-- Python truthiness of a JSON value (`if x:`). -/
def pyTruthy (j : Json) : Bool :=
  match j with
  | .null => false
  | .b v => v
  | .n i => i != 0
  | .s v => v ≠ ""
  | .arr l => !l.isEmpty
  | .obj fs => !fs.isEmpty

/-! Basic lemmas about the dictionary operations. -/

theorem getFs_setFs_self (fs : List (String × Json)) (k : String) (v : Json) :
    getFs (setFs fs k v) k = some v := by
  induction fs with
  | nil => simp [setFs, getFs]
  | cons p fs ih =>
      obtain ⟨k', v'⟩ := p
      by_cases h : k' = k
      · simp [setFs, getFs, h]
      · simp [setFs, getFs, h, ih]

theorem getFs_setFs_ne (fs : List (String × Json)) (k k' : String) (v : Json)
    (h : k' ≠ k) : getFs (setFs fs k v) k' = getFs fs k' := by
  have h2 : ¬ (k = k') := fun hh => h hh.symm
  induction fs with
  | nil => simp [setFs, getFs, h2]
  | cons p fs ih =>
      obtain ⟨k₀, v₀⟩ := p
      by_cases h0 : k₀ = k
      · subst h0
        simp [setFs, getFs, h2]
      · simp [setFs, getFs, h0, ih]

theorem setFs_same (fs : List (String × Json)) (k : String) (v : Json)
    (h : getFs fs k = some v) : setFs fs k v = fs := by
  induction fs with
  | nil => simp [getFs] at h
  | cons p fs ih =>
      obtain ⟨k₀, v₀⟩ := p
      by_cases h0 : k₀ = k
      · subst h0
        simp [getFs] at h
        simp [setFs, h]
      · simp [getFs, h0] at h
        simp [setFs, h0, ih h]

/-- Rewriting a key to the value it already holds is a no-op. -/
theorem jset_same (j : Json) (k : String) (v : Json) (h : jget j k = some v) :
    jset j k v = j := by
  cases j <;> simp [jget] at h
  simp [jset, setFs_same _ _ _ h]

theorem jget_jset_self (j : Json) (k : String) (v : Json) (hj : ∃ fs, j = .obj fs) :
    jget (jset j k v) k = some v := by
  obtain ⟨fs, rfl⟩ := hj
  simp [jget, jset, getFs_setFs_self]

theorem jget_jset_ne (j : Json) (k k' : String) (v : Json) (h : k' ≠ k) :
    jget (jset j k v) k' = jget j k' := by
  cases j <;> simp [jget, jset]
  exact getFs_setFs_ne _ _ _ _ h

/-! Lexicographic (code-point) string order, as used by Python string
    comparison and by the database when ordering rows by a text column.
    The Lean core order on `String` does not reduce in the kernel, so a
    self-contained executable order is defined here. -/

def lexLtL : List Char → List Char → Bool
  | [], [] => false
  | [], _ :: _ => true
  | _ :: _, [] => false
  | a :: as, b :: bs =>
      if a.toNat < b.toNat then true
      else if b.toNat < a.toNat then false
      else lexLtL as bs

def lexLt (a b : String) : Bool :=
  lexLtL a.data b.data

theorem lexLtL_irrefl (l : List Char) : lexLtL l l = false := by
  induction l with
  | nil => rfl
  | cons a as ih => simp [lexLtL, ih]

theorem lexLtL_cons (x y : Char) (xs ys : List Char) :
    lexLtL (x :: xs) (y :: ys)
      = if x.toNat < y.toNat then true
        else if y.toNat < x.toNat then false else lexLtL xs ys := rfl

theorem lexLtL_trans (a b c : List Char) (h1 : lexLtL a b = true)
    (h2 : lexLtL b c = true) : lexLtL a c = true := by
  induction a generalizing b c with
  | nil =>
      cases c with
      | nil =>
          cases b with
          | nil => exact h1
          | cons y ys => exact absurd h2 (by simp [lexLtL])
      | cons z zs => rfl
  | cons x xs ih =>
      cases b with
      | nil => exact absurd h1 (by simp [lexLtL])
      | cons y ys =>
          cases c with
          | nil => exact absurd h2 (by simp [lexLtL])
          | cons z zs =>
              rw [lexLtL_cons] at h1 h2 ⊢
              by_cases hxy : x.toNat < y.toNat
              · by_cases hyz : y.toNat < z.toNat
                · rw [if_pos (by omega)]
                · rw [if_neg hyz] at h2
                  by_cases hzy : z.toNat < y.toNat
                  · rw [if_pos hzy] at h2
                    exact absurd h2 (by simp)
                  · rw [if_pos (by omega)]
              · rw [if_neg hxy] at h1
                by_cases hyx : y.toNat < x.toNat
                · rw [if_pos hyx] at h1
                  exact absurd h1 (by simp)
                · rw [if_neg hyx] at h1
                  by_cases hyz : y.toNat < z.toNat
                  · rw [if_pos (by omega)]
                  · rw [if_neg hyz] at h2
                    by_cases hzy : z.toNat < y.toNat
                    · rw [if_pos hzy] at h2
                      exact absurd h2 (by simp)
                    · rw [if_neg hzy] at h2
                      rw [if_neg (by omega : ¬ x.toNat < z.toNat),
                          if_neg (by omega : ¬ z.toNat < x.toNat)]
                      exact ih ys zs h1 h2

theorem lexLtL_conn (a b : List Char) (h1 : lexLtL a b = false)
    (h2 : lexLtL b a = false) : a = b := by
  induction a generalizing b with
  | nil =>
      cases b with
      | nil => rfl
      | cons y ys => exact absurd h1 (by simp [lexLtL])
  | cons x xs ih =>
      cases b with
      | nil => exact absurd h2 (by simp [lexLtL])
      | cons y ys =>
          rw [lexLtL_cons] at h1 h2
          by_cases hxy : x.toNat < y.toNat
          · rw [if_pos hxy] at h1
            exact absurd h1 (by simp)
          · by_cases hyx : y.toNat < x.toNat
            · rw [if_pos hyx] at h2
              exact absurd h2 (by simp)
            · rw [if_neg hxy, if_neg hyx] at h1
              have heq : x.toNat = y.toNat := by omega
              have hchar : x = y := by
                unfold Char.toNat at heq
                exact Char.eq_of_val_eq (UInt32.eq_of_toBitVec_eq (BitVec.eq_of_toNat_eq heq))
              subst hchar
              rw [if_neg hxy, if_neg hyx] at h2
              rw [ih ys h1 h2]

theorem lexLt_trans (a b c : String) (h1 : lexLt a b = true) (h2 : lexLt b c = true) :
    lexLt a c = true :=
  lexLtL_trans _ _ _ h1 h2

theorem lexLt_conn (a b : String) (h1 : lexLt a b = false) (h2 : lexLt b a = false) :
    a = b := by
  have h := lexLtL_conn a.data b.data h1 h2
  cases a with
  | mk da =>
      cases b with
      | mk db => exact congrArg String.mk h

theorem lexLt_asymm (a b : String) (h : lexLt a b = true) : lexLt b a = false := by
  by_contra hc
  have hc' : lexLt b a = true := by
    cases h2 : lexLt b a
    · exact absurd h2 hc
    · rfl
  have hd := lexLt_trans a b a h hc'
  simp [lexLt, lexLtL_irrefl] at hd

/-! Stable insertion sort by a string key: the model of the database
    `.order(column)` (ascending, stable) and of Python `list.sort(key=...)`. -/

def insK {α : Type} (key : α → String) (x : α) : List α → List α
  | [] => [x]
  | y :: ys => if lexLt (key x) (key y) then x :: y :: ys else y :: insK key x ys

def isortK {α : Type} (key : α → String) : List α → List α
  | [] => []
  | x :: xs => insK key x (isortK key xs)

theorem mem_insK {α : Type} (key : α → String) (x a : α) (l : List α) :
    a ∈ insK key x l ↔ a = x ∨ a ∈ l := by
  induction l with
  | nil => simp [insK]
  | cons y ys ih =>
      cases h0 : lexLt (key x) (key y)
      · have e : insK key x (y :: ys) = y :: insK key x ys := by
          simp [insK, h0]
        rw [e]
        simp only [List.mem_cons, ih]
        tauto
      · have e : insK key x (y :: ys) = x :: y :: ys := by
          simp [insK, h0]
        rw [e]
        simp

theorem mem_isortK {α : Type} (key : α → String) (a : α) (l : List α) :
    a ∈ isortK key l ↔ a ∈ l := by
  induction l with
  | nil => simp [isortK]
  | cons x xs ih => simp [isortK, mem_insK, ih]

/-- Transitivity of the reflexive closure: a ≥ b and b ≥ c give a ≥ c. -/
theorem lexLt_le_trans (a b c : String) (h1 : lexLt b a = false)
    (h2 : lexLt c b = false) : lexLt c a = false := by
  cases hca : lexLt c a
  · rfl
  · exfalso
    cases hab : lexLt a b
    · have := lexLt_conn a b hab h1
      subst this
      simp [hca] at h2
    · have := lexLt_trans c a b hca hab
      simp [this] at h2

/-- Strict-then-large: a < b and b ≤ c give a < c. -/
theorem lexLt_lt_of_lt_of_le (a b c : String) (h1 : lexLt a b = true)
    (h2 : lexLt c b = false) : lexLt a c = true := by
  cases hac : lexLt a c
  · exfalso
    cases hca : lexLt c a
    · have := lexLt_conn a c hac hca
      subst this
      simp [h1] at h2
    · have := lexLt_trans c a b hca h1
      simp [this] at h2
  · rfl

/-- Insertion goes to the head when the new key is below every element. -/
theorem insK_eq_cons {α : Type} (key : α → String) (x : α) (l : List α)
    (h : ∀ z ∈ l, lexLt (key x) (key z) = true) : insK key x l = x :: l := by
  cases l with
  | nil => rfl
  | cons y ys => simp [insK, h y (List.mem_cons_self y ys)]

/-- The output of the sort is ascending in the key (ties kept adjacent). -/
theorem pairwise_insK {α : Type} (key : α → String) (x : α) (l : List α)
    (h : l.Pairwise (fun a b => lexLt (key b) (key a) = false)) :
    (insK key x l).Pairwise (fun a b => lexLt (key b) (key a) = false) := by
  induction l with
  | nil => simp [insK]
  | cons y ys ih =>
      rcases List.pairwise_cons.mp h with ⟨hy, hys⟩
      by_cases hx : lexLt (key x) (key y)
      · simp only [insK, hx, if_true]
        refine List.pairwise_cons.mpr ⟨?_, h⟩
        intro a ha
        rcases List.mem_cons.mp ha with rfl | ha
        · exact lexLt_asymm _ _ hx
        · exact lexLt_asymm _ _ (lexLt_lt_of_lt_of_le _ _ _ hx (hy a ha))
      · simp only [insK, hx, if_false]
        have hx' : lexLt (key x) (key y) = false := by
          cases h0 : lexLt (key x) (key y)
          · rfl
          · exact absurd h0 hx
        refine List.pairwise_cons.mpr ⟨?_, ih hys⟩
        intro a ha
        rcases (mem_insK key x a ys).mp ha with rfl | ha
        · exact hx'
        · exact hy a ha

theorem pairwise_isortK {α : Type} (key : α → String) (l : List α) :
    (isortK key l).Pairwise (fun a b => lexLt (key b) (key a) = false) := by
  induction l with
  | nil => simp [isortK]
  | cons x xs ih => exact pairwise_insK key x _ ih

/-- Sorting a list whose keys are already strictly ascending is the identity. -/
theorem isortK_eq_self {α : Type} (key : α → String) (l : List α)
    (h : l.Chain' (fun a b => lexLt (key a) (key b) = true)) :
    isortK key l = l := by
  induction l with
  | nil => rfl
  | cons x xs ih =>
      have hx := ih (List.Chain'.tail h)
      rw [isortK, hx]
      cases xs with
      | nil => rfl
      | cons y ys =>
          have hxy : lexLt (key x) (key y) = true := (List.chain'_cons.mp h).1
          simp [insK, hxy]

/-- A stable sort commutes with filtering. -/
theorem filter_insK {α : Type} (key : α → String) (p : α → Bool) (x : α) (l : List α)
    (hs : l.Pairwise (fun a b => lexLt (key b) (key a) = false)) :
    (insK key x l).filter p
      = (if p x then insK key x (l.filter p) else l.filter p) := by
  induction l with
  | nil => cases hp : p x <;> simp [insK, List.filter_cons, hp]
  | cons y ys ih =>
      rcases List.pairwise_cons.mp hs with ⟨hy, hys⟩
      by_cases hx : lexLt (key x) (key y)
      · have e1 : insK key x (y :: ys) = x :: y :: ys := by simp [insK, hx]
        rw [e1, List.filter_cons]
        cases hp : p x
        · rw [if_neg (by simp), if_neg (by simp)]
        · rw [if_pos (by simp), if_pos (by simp)]
          refine (insK_eq_cons key x _ ?_).symm
          intro z hz
          rcases List.mem_cons.mp (List.mem_of_mem_filter hz) with rfl | hz'
          · exact hx
          · exact lexLt_lt_of_lt_of_le _ _ _ hx (hy z hz')
      · have e1 : insK key x (y :: ys) = y :: insK key x ys := by simp [insK, hx]
        have hx' : lexLt (key x) (key y) = false := by
          cases h0 : lexLt (key x) (key y)
          · rfl
          · exact absurd h0 hx
        rw [e1, List.filter_cons, List.filter_cons, ih hys]
        cases hpy : p y
        · cases hp : p x <;> simp
        · cases hp : p x
          · simp
          · simp [insK, hx']

theorem filter_isortK {α : Type} (key : α → String) (p : α → Bool) (l : List α) :
    (isortK key l).filter p = isortK key (l.filter p) := by
  induction l with
  | nil => rfl
  | cons x xs ih =>
      rw [isortK, filter_insK key p x _ (pairwise_isortK key xs)]
      cases hp : p x
      · simpa [List.filter, hp] using ih
      · simp [List.filter, hp, isortK, ih]

/-! Position code parsing.

The regular expression shared by `filter_json_by_full_nr`,
`validate_position_number_format` and `get_position_info` in
src/backend/app/services/entity.py is

    r"^(\d{2})(\d{2})(\d{2})([A-Z]?)$"

It is modelled as an executable matcher returning the four capture groups.
`$` in Python `re` matches at the end of the string and also just before a
single newline at the very end, so the pattern is matched against the input
with an optional final newline removed.  `\d` and `[A-Z]` are modelled as the
ASCII classes; this coincides with Python on ASCII input (Python's `\d`
additionally matches non-ASCII Unicode decimal digits, outside the scope of
this model — the C6 theorem below is restricted accordingly). -/

/-- Remove one final newline, if present: the set of strings consumed by a
    `re` pattern ending in `$`. -/
def dropFinalNl : List Char → List Char
  | [] => []
  | [c] => if c = '\n' then [] else [c]
  | c :: rest => c :: dropFinalNl rest

def matchFullNr (nr : String) : Option (String × String × String × String) :=
  match dropFinalNl nr.data with
  | [a, b, c, d, e, f] =>
      if (a.isDigit && b.isDigit && c.isDigit && d.isDigit && e.isDigit && f.isDigit) then
        some (⟨[a, b]⟩, ⟨[c, d]⟩, ⟨[e, f]⟩, "")
      else none
  | [a, b, c, d, e, f, g] =>
      if (a.isDigit && b.isDigit && c.isDigit && d.isDigit && e.isDigit && f.isDigit
          && g.isUpper) then
        some (⟨[a, b]⟩, ⟨[c, d]⟩, ⟨[e, f]⟩, ⟨[g]⟩)
      else none
  | _ => none

/-- entity.py `validate_position_number_format`: true iff the position number
    matches the shared pattern. -/
def validate_position_number_format (position_number : String) : Bool :=
  (matchFullNr position_number).isSome

/-- The dictionary returned by entity.py `get_position_info` on valid input
    (on invalid input the Python function returns `{}`, modelled by `none`). -/
structure PositionInfo where
  lg_nr : String
  ulg_nr : String
  grundtext_nr : String
  folgeposition : Option String
  is_full_grundtext : Bool
deriving DecidableEq

/-- entity.py `get_position_info`. -/
def get_position_info (position_number : String) : Option PositionInfo :=
  (matchFullNr position_number).map fun g =>
    { lg_nr := g.1
      ulg_nr := g.2.1
      grundtext_nr := g.2.2.1
      folgeposition := if g.2.2.2 = "" then none else some g.2.2.2
      is_full_grundtext := g.2.2.2 = "" }

/-- Python `str.strip()`: remove leading and trailing whitespace.  The Lean
    core `String.trim` does not reduce in the kernel, so the strip is defined
    on the character list.  The character class is the ten ASCII characters
    for which Python `str.isspace()` holds (Python also strips non-ASCII
    Unicode whitespace, outside the scope of this model). -/
def pySpaceChar (c : Char) : Bool :=
  c == ' ' || c == '\t' || c == '\n' || c == '\r' || c == '\x0b' || c == '\x0c'
    || c == '\x1c' || c == '\x1d' || c == '\x1e' || c == '\x1f'

def pyStrip (s : String) : String :=
  ⟨((s.data.dropWhile pySpaceChar).reverse.dropWhile pySpaceChar).reverse⟩

/-- Six digits followed by at most one letter drawn from the class `letterOk`:
    the common shape of the two position-number regular expressions. -/
def matchesGrammarL (letterOk : Char → Bool) : List Char → Bool
  | [a, b, c, d, e, f] =>
      a.isDigit && b.isDigit && c.isDigit && d.isDigit && e.isDigit && f.isDigit
  | [a, b, c, d, e, f, g] =>
      a.isDigit && b.isDigit && c.isDigit && d.isDigit && e.isDigit && f.isDigit
        && letterOk g
  | _ => false

/-- The validation prefix of data_services.py `find_regulation_by_number`
    (lines 978-987): reject non-strings / empty strings, strip whitespace, then
    require the pattern r'^\d{6}[A-Za-z]?$' — note: the letter, unlike in
    `validate_position_number_format`, may be of either case.  `true` means the
    function proceeds to the database query; `false` means it returns `[]`.
    Because the stripped string never ends in whitespace, the
    before-final-newline alternative of `$` cannot fire here and the pattern is
    matched against the exact end of the stripped string. -/
def find_regulation_by_number_accepts (regulation_nr : String) : Bool :=
  if regulation_nr = "" then false
  else matchesGrammarL Char.isAlpha (pyStrip regulation_nr).data

/-! The keep-set filter `filter_json_by_full_nr` (entity.py lines 244-353).

The Python function builds the result dictionary incrementally; `added_ulgs`
maps each 2-digit ULG number to the (mutable) ULG copy stored in the result
list.  Because every ULG appended to the result list satisfies
`str(ulg["@_nr"]) == ulg_nr` for its own distinct `ulg_nr`, membership in
`added_ulgs` coincides with the presence of a matching ULG in the result list,
and the mutation of the aliased copy coincides with the in-place update of the
first (only) matching list entry; the model uses the list form of both. -/

/-- Python `json_input.get("ulg-liste", {}).get("ulg", [])`. -/
def srcUlgList (j : Json) : List Json :=
  jitems (jgetD (jgetD j "ulg-liste" (.obj [])) "ulg" (.arr []))

/-- Linear search for the first entity with `str(entity.get(key)) == value`,
    the loop pattern used throughout entity.py. -/
def findByNr (l : List Json) (key : String) (value : String) : Option Json :=
  l.find? (fun e => pyStr (jget e key) == value)

/-- Python `ulg.get("positionen", {}).get("grundtextnr", [])` and the direct
    read `result_ulg["positionen"]["grundtextnr"]` (both yield the same list on
    data where the Python code does not raise). -/
def gtList (ulg : Json) : List Json :=
  jitems (jgetD (jgetD ulg "positionen" (.obj [])) "grundtextnr" (.arr []))

/-- Python `result_ulg["positionen"]["grundtextnr"] = l` (preserving the other
    keys of "positionen"). -/
def setGtList (ulg : Json) (l : List Json) : Json :=
  jset ulg "positionen" (jset (jgetD ulg "positionen" (.obj [])) "grundtextnr" (.arr l))

/-- Python `gt.get("folgeposition", [])` and the direct read
    `gt["folgeposition"]`. -/
def fpList (gt : Json) : List Json :=
  jitems (jgetD gt "folgeposition" (.arr []))

/-- Python `gt["folgeposition"] = l`. -/
def setFpList (gt : Json) (l : List Json) : Json :=
  jset gt "folgeposition" (.arr l)

/-- Replace the first element satisfying the predicate (the model of mutating
    an aliased list entry in place). -/
def updFirst {α : Type} (p : α → Bool) (f : α → α) : List α → List α
  | [] => []
  | x :: xs => if p x then f x :: xs else x :: updFirst p f xs

/-- The result list `result["ulg-liste"]["ulg"]`. -/
def ulgListOf (res : Json) : List Json :=
  jitems (jgetD (jgetD res "ulg-liste" (.obj [])) "ulg" (.arr []))

/-- Python `result["ulg-liste"]["ulg"] = l` (preserving the other keys of
    "ulg-liste"). -/
def setUlgList (res : Json) (l : List Json) : Json :=
  jset res "ulg-liste" (jset (jgetD res "ulg-liste" (.obj [])) "ulg" (.arr l))

/-- Lines 308-351 of entity.py: given the ULG found in the original input
    (`target_ulg`) and the parsed Grundtext number and Folgeposition letter of
    the current code, update the result-ULG copy (`result_ulg`). -/
def keepGtStep (target_ulg : Json) (gt_nr fp_letter : String) (result_ulg : Json) : Json :=
  match findByNr (gtList target_ulg) "@_nr" gt_nr with
  | none => result_ulg
  | some target_gt =>
    match findByNr (gtList result_ulg) "@_nr" gt_nr with
    | some existing_gt =>
        if fp_letter ≠ "" then
          if ((fpList existing_gt).map (fun fp => jget fp "@_ftnr")).any
              (fun o => o == some (.s fp_letter)) then result_ulg
          else
            match (fpList target_gt).find? (fun fp => jget fp "@_ftnr" == some (.s fp_letter)) with
            | none => result_ulg
            | some fp =>
                setGtList result_ulg
                  (updFirst (fun gt => pyStr (jget gt "@_nr") == gt_nr)
                    (fun gt => setFpList gt (fpList gt ++ [fp])) (gtList result_ulg))
        else result_ulg
    | none =>
        if fp_letter ≠ "" then
          setGtList result_ulg (gtList result_ulg
            ++ [setFpList target_gt
              ((((fpList target_gt).find? (fun fp => jget fp "@_ftnr" == some (.s fp_letter))).map
                (fun fp => [fp])).getD [])])
        else
          setGtList result_ulg (gtList result_ulg ++ [target_gt])

/-- The body of one loop iteration after a successful parse: `g` carries the
    four capture groups (LG, ULG, Grundtext, Folgeposition letter). -/
def keepStepGo (json_input res : Json) (g : String × String × String × String) : Json :=
  match findByNr (srcUlgList json_input) "@_nr" g.2.1 with
  | none => res
  | some target_ulg =>
    if (ulgListOf res).any (fun u => pyStr (jget u "@_nr") == g.2.1) then
      setUlgList res
        (updFirst (fun u => pyStr (jget u "@_nr") == g.2.1)
          (keepGtStep target_ulg g.2.2.1 g.2.2.2) (ulgListOf res))
    else
      setUlgList res
        (ulgListOf res ++ [keepGtStep target_ulg g.2.2.1 g.2.2.2 (setGtList target_ulg [])])

/-- One iteration of the `for nr in full_nrs_to_keep` loop: parse the code,
    look the ULG up in the original input, then create or update the result-ULG
    copy. -/
def keepStep (json_input : Json) (res : Json) (nr : String) : Json :=
  match matchFullNr nr with
  | none => res
  | some g => keepStepGo json_input res g

/-- Lines 262-272: the starting result — a deep copy of the input with the ULG
    list emptied when the "ulg-liste"/"ulg" keys are present. -/
def emptyUlgs (j : Json) : Json :=
  if jhasK j "ulg-liste" && jhasK (jgetD j "ulg-liste" (.obj [])) "ulg" then
    setUlgList j []
  else j

/-- entity.py `filter_json_by_full_nr`, in state-passing form: the first
    component of the state is the caller's `json_input` object (which the
    Python code only ever reads — every write in the loop goes to `result` or
    to deep copies), the second is `result`. -/
def filter_json_by_full_nr_run (json_input : Json) (full_nrs_to_keep : List String) :
    Json × Json :=
  if full_nrs_to_keep.isEmpty then (json_input, emptyUlgs json_input)
  else full_nrs_to_keep.foldl (fun st nr => (st.1, keepStep st.1 st.2 nr))
    (json_input, emptyUlgs json_input)

/-- entity.py `filter_json_by_full_nr`: the returned result tree. -/
def filter_json_by_full_nr (json_input : Json) (full_nrs_to_keep : List String) : Json :=
  (filter_json_by_full_nr_run json_input full_nrs_to_keep).2

/-! The zoom filter `filter_json_entity` (entity.py lines 12-237). -/

/-- Which return path of `filter_json_entity` ran: an ordinary filtered result,
    the "Invalid target_entity_type" error print, or the "Input JSON does not
    seem to be a valid LG, ULG, or Grundtext structure" error print (the two
    error paths return the original `json_input` unchanged). -/
inductive ZoomTag where
  | ok
  | invalidTargetType
  | unrecognizedInput
deriving DecidableEq

/-- entity.py `_find_and_filter_single`: the list holding only the first
    entity whose key matches, or the empty list. -/
def find_and_filter_single (entity_list : List Json) (key_name value_to_find : String) :
    List Json :=
  match entity_list.find? (fun e => pyStr (jget e key_name) == value_to_find) with
  | some e => [e]
  | none => []

/-- The first-match-wins loop pattern of the nested branches: skip entries
    (continue) while `f` yields `none`, keep exactly the first transformed
    entry and break. -/
def findTransform (l : List Json) (f : Json → Option Json) : List Json :=
  match l with
  | [] => []
  | x :: xs =>
      match f x with
      | some y => [y]
      | none => findTransform xs f

/-- Shape detection, entity.py lines 85-87 (checked in this order). -/
def is_lg_shape (j : Json) : Bool := jhasK j "lg-eigenschaften" && jhasK j "ulg-liste"

def is_ulg_shape (j : Json) : Bool := jhasK j "ulg-eigenschaften" && jhasK j "positionen"

def is_grundtext_shape (j : Json) : Bool := jhasK j "grundtext" && jhasK j "folgeposition"

/-- The scope guard `if target_X_nr is not None and str(node.get('@_nr')) !=
    target_X_nr: continue`. -/
def scopeOk (scope : Option String) (node : Json) : Bool :=
  match scope with
  | none => true
  | some t => pyStr (jget node "@_nr") == t

/-- The Grundtext-level body of the Folgeposition branches: scope check, then
    filter the 'folgeposition' list to the first match. -/
def zoomFpInGt (target_grundtext_nr : Option String) (target_value : String)
    (gt : Json) : Option Json :=
  if scopeOk target_grundtext_nr gt then
    if jhasK gt "folgeposition" then
      match findByNr (fpList gt) "@_ftnr" target_value with
      | some fp => some (setFpList gt [fp])
      | none => none
    else none
  else none

/-- The ULG-level body of the LG/Grundtext branch: scope check, then filter the
    'grundtextnr' list to the first match. -/
def zoomGtInUlg (target_ulg_nr : Option String) (target_value : String)
    (ulg : Json) : Option Json :=
  if scopeOk target_ulg_nr ulg then
    if jhasK ulg "positionen" && jhasK (jgetD ulg "positionen" (.obj [])) "grundtextnr" then
      match findByNr (gtList ulg) "@_nr" target_value with
      | some gt => some (setGtList ulg [gt])
      | none => none
    else none
  else none

/-- The ULG-level body of the LG/Folgeposition branch. -/
def zoomFpInUlg (target_ulg_nr target_grundtext_nr : Option String)
    (target_value : String) (ulg : Json) : Option Json :=
  if scopeOk target_ulg_nr ulg then
    match findTransform (gtList ulg) (zoomFpInGt target_grundtext_nr target_value) with
    | [] => none
    | gts => some (setGtList ulg gts)
  else none

/-- entity.py `filter_json_entity`, in tagged state-passing form: the result is
    `(which return path ran, the caller's json_input object after the call, the
    returned tree)`.  The function deep-copies its input up front and mutates
    only the copy, so the input component is returned unchanged on every path;
    the two error paths return the original `json_input` itself. -/
def filter_json_entity_run (json_input : Json) (target_entity_type target_value : String)
    (target_ulg_nr target_grundtext_nr : Option String) : ZoomTag × Json × Json :=
  let updated := json_input
  if is_lg_shape updated then
    if target_entity_type = "ULG" then
      if jhasK updated "ulg-liste" && jhasK (jgetD updated "ulg-liste" (.obj [])) "ulg" then
        (.ok, json_input,
          setUlgList updated (find_and_filter_single (srcUlgList updated) "@_nr" target_value))
      else
        if jhasK updated "ulg-liste" then (.ok, json_input, setUlgList updated [])
        else (.ok, json_input, jset updated "ulg-liste" (.obj [("ulg", .arr [])]))
    else if target_entity_type = "Grundtext" then
      (.ok, json_input,
        setUlgList updated
          (findTransform (srcUlgList updated) (zoomGtInUlg target_ulg_nr target_value)))
    else if target_entity_type = "Folgeposition" then
      (.ok, json_input,
        setUlgList updated
          (findTransform (srcUlgList updated)
            (zoomFpInUlg target_ulg_nr target_grundtext_nr target_value)))
    else (.invalidTargetType, json_input, json_input)
  else if is_ulg_shape updated then
    if target_entity_type = "Grundtext" then
      if jhasK updated "positionen" && jhasK (jgetD updated "positionen" (.obj [])) "grundtextnr" then
        (.ok, json_input,
          setGtList updated (find_and_filter_single (gtList updated) "@_nr" target_value))
      else
        if jhasK updated "positionen" then (.ok, json_input, setGtList updated [])
        else (.ok, json_input, jset updated "positionen" (.obj [("grundtextnr", .arr [])]))
    else if target_entity_type = "Folgeposition" then
      (.ok, json_input,
        setGtList updated
          (findTransform (gtList updated) (zoomFpInGt target_grundtext_nr target_value)))
    else (.invalidTargetType, json_input, json_input)
  else if is_grundtext_shape updated then
    if target_entity_type = "Folgeposition" then
      if jhasK updated "folgeposition" then
        (.ok, json_input,
          setFpList updated (find_and_filter_single (fpList updated) "@_ftnr" target_value))
      else (.ok, json_input, setFpList updated [])
    else (.invalidTargetType, json_input, json_input)
  else (.unrecognizedInput, json_input, json_input)

/-- entity.py `filter_json_entity`: the returned tree. -/
def filter_json_entity (json_input : Json) (target_entity_type target_value : String)
    (target_ulg_nr target_grundtext_nr : Option String) : Json :=
  (filter_json_entity_run json_input target_entity_type target_value
    target_ulg_nr target_grundtext_nr).2.2

/-! The canonical key-ordering codec: data_services.py `KEY_ORDER_MAP`,
    `_get_object_type` and `_preserve_json_order` (lines 104-164). -/

/-- data_services.py `KEY_ORDER_MAP.get(obj_type, [])`. -/
def KEY_ORDER_MAP (obj_type : String) : List String :=
  if obj_type = "LG" then ["lg-eigenschaften", "ulg-liste", "@_nr"]
  else if obj_type = "ULG" then ["ulg-eigenschaften", "positionen", "@_nr"]
  else if obj_type = "GT" then ["grundtext", "ungeteilteposition", "folgeposition", "@_nr"]
  else if obj_type = "POS" then ["pos-eigenschaften", "@_ftnr", "@_mfv"]
  else []

/-- Key membership in a dictionary's field list. -/
def hasKeyFs (fs : List (String × Json)) (k : String) : Bool :=
  (getFs fs k).isSome

/-- data_services.py `_get_object_type`. -/
def _get_object_type (fs : List (String × Json)) : String :=
  if hasKeyFs fs "@_nr" && hasKeyFs fs "lg-eigenschaften" then "LG"
  else if hasKeyFs fs "@_nr" && hasKeyFs fs "ulg-eigenschaften" then "ULG"
  else if hasKeyFs fs "@_nr"
      && (hasKeyFs fs "grundtext" || hasKeyFs fs "ungeteilteposition"
          || hasKeyFs fs "folgeposition") then "GT"
  else if (hasKeyFs fs "@_ftnr" || hasKeyFs fs "@_mfv") && hasKeyFs fs "pos-eigenschaften"
    then "POS"
  else "UNKNOWN"

/-- String-list membership (Python `in` on a list/set of strings). -/
def hasStr (l : List String) (k : String) : Bool :=
  match l with
  | [] => false
  | a :: t => (a == k) || hasStr t k

/-- The first emission loop of `_preserve_json_order`: for each predefined key
    in order, emit the entry when the dictionary contains the key. -/
def part1Fields (fs : List (String × Json)) : List String → List (String × Json)
  | [] => []
  | k :: rest =>
      match getFs fs k with
      | some v => (k, v) :: part1Fields fs rest
      | none => part1Fields fs rest

/-- The key-reordering pass of `_preserve_json_order` on one dictionary: first
    the predefined keys that are present (in predefined order, with their
    original values), then the remaining entries in original order.  (The
    Python loops interleave this reordering with the recursive canonicalization
    of the values; since the reordering looks only at keys and the recursion
    only at values, the model performs the recursion on every entry first and
    then reorders, which yields the same dictionary.) -/
def reorderFields (fs : List (String × Json)) : List (String × Json) :=
  part1Fields fs (KEY_ORDER_MAP (_get_object_type fs))
    ++ fs.filter (fun kv => !hasStr (KEY_ORDER_MAP (_get_object_type fs)) kv.1)

mutual
/-- data_services.py `_preserve_json_order`: recursively reorder the keys of
    every recognized node shape into the canonical sequence, keeping unknown
    keys (and unknown shapes) in their original relative order. -/
def _preserve_json_order : Json → Json
  | .obj fs => .obj (reorderFields (canonFs fs))
  | .arr l => .arr (canonL l)
  | x => x
def canonL : List Json → List Json
  | [] => []
  | x :: xs => _preserve_json_order x :: canonL xs
def canonFs : List (String × Json) → List (String × Json)
  | [] => []
  | (k, v) :: xs => (k, _preserve_json_order v) :: canonFs xs
end

/-! The reconstruction path: entity.py
    `fetch_and_filter_lg_by_position_numbers_v2` (lines 457-584).

    The Supabase storage is modelled as a list of rows of the `regulations`
    table; a `.eq`/`.in_` query is a filter over that list, and `.order(col)`
    is a stable ascending sort on the column.  `entity_json` is stored in the
    database as a JSON string and parsed with `json.loads`; rows are modelled
    post-parse (`none` models a NULL/empty column, which the code turns
    into `{}`). -/

structure RegRow where
  entity_type : String
  lg_nr : String
  ulg_nr : Option String
  grundtext_nr : Option String
  position_nr : Option String
  entity_json : Option Json
deriving DecidableEq

/-- A database column value placed into a JSON document
    (`fp_json["@_ftnr"] = fp['position_nr']`). -/
def optStr (o : Option String) : Json :=
  match o with
  | some v => .s v
  | none => .null

/-- Python dict insertion (`lg_data[lg_nr] = lg_json`) on an association list. -/
def setAssoc (acc : List (String × Json)) (k : String) (v : Json) : List (String × Json) :=
  match acc with
  | [] => [(k, v)]
  | (k', v') :: t => if k' == k then (k, v) :: t else (k', v') :: setAssoc t k v

/-- Step 1 of v2: the set of LG numbers of the valid position numbers
    (modelled as a list used only through membership and emptiness). -/
def v2_lg_nrs (position_numbers : List String) : List String :=
  position_numbers.filterMap (fun nr =>
    if validate_position_number_format nr then (get_position_info nr).map (·.lg_nr) else none)

/-- The four bulk queries of step 2 of v2: `.eq('entity_type', ty)` together
    with `.in_('lg_nr', lg_nrs)`. -/
def v2_rows (storage : List RegRow) (ty : String) (lg_nrs : List String) : List RegRow :=
  storage.filter (fun r => r.entity_type == ty && hasStr lg_nrs r.lg_nr)

/-- Step 3a of v2: the Folgeposition group of one `(lg_nr, ulg_nr,
    grundtext_nr)` key, built from the sorted Folgeposition query result. -/
def v2_fps_by_gt (fp_records : List RegRow) (lg : String) (ulg gt : Option String) :
    List Json :=
  (fp_records.filter (fun r => r.lg_nr == lg && r.ulg_nr == ulg && r.grundtext_nr == gt)).map
    (fun r => jset (r.entity_json.getD (.obj [])) "@_ftnr" (optStr r.position_nr))

/-- Step 3b of v2: one reconstructed Grundtext document. -/
def v2_build_gt (fp_records : List RegRow) (r : RegRow) : Json :=
  jset (jset (r.entity_json.getD (.obj [])) "@_nr" (optStr r.grundtext_nr))
    "folgeposition" (.arr (v2_fps_by_gt fp_records r.lg_nr r.ulg_nr r.grundtext_nr))

/-- Step 3b of v2: the Grundtext group of one `(lg_nr, ulg_nr)` key. -/
def v2_gts_by_ulg (gt_records fp_records : List RegRow) (lg : String) (ulg : Option String) :
    List Json :=
  (gt_records.filter (fun r => r.lg_nr == lg && r.ulg_nr == ulg)).map
    (v2_build_gt fp_records)

/-- Step 3c of v2: one reconstructed ULG document (creating the "positionen"
    dict when the stored document lacks it). -/
def v2_build_ulg (gt_records fp_records : List RegRow) (r : RegRow) : Json :=
  let ulg_json := jset (r.entity_json.getD (.obj [])) "@_nr" (optStr r.ulg_nr)
  let ulg_json := if jhasK ulg_json "positionen" then ulg_json
    else jset ulg_json "positionen" (.obj [])
  jset ulg_json "positionen"
    (jset (jgetD ulg_json "positionen" (.obj [])) "grundtextnr"
      (.arr (v2_gts_by_ulg gt_records fp_records r.lg_nr r.ulg_nr)))

/-- Step 3c of v2: the ULG group of one LG number. -/
def v2_ulgs_by_lg (ulg_records gt_records fp_records : List RegRow) (lg : String) :
    List Json :=
  (ulg_records.filter (fun r => r.lg_nr == lg)).map (v2_build_ulg gt_records fp_records)

/-- Step 3d of v2: one reconstructed LG document. -/
def v2_build_lg (ulg_records gt_records fp_records : List RegRow) (r : RegRow) : Json :=
  let lg_json := jset (r.entity_json.getD (.obj [])) "@_nr" (.s r.lg_nr)
  let lg_json := if jhasK lg_json "ulg-liste" then lg_json
    else jset lg_json "ulg-liste" (.obj [])
  jset lg_json "ulg-liste"
    (jset (jgetD lg_json "ulg-liste" (.obj [])) "ulg"
      (.arr (v2_ulgs_by_lg ulg_records gt_records fp_records r.lg_nr)))

/-- Step 3 of v2: the `lg_data` dictionary (LG number → rebuilt LG JSON),
    rebuilt from the four bulk query results (`.order(col)` modelled by the
    stable sort on the column). -/
def v2_lg_data (storage : List RegRow) (position_numbers : List String) :
    List (String × Json) :=
  let lg_nrs := v2_lg_nrs position_numbers
  let ulg_records := isortK (fun r => r.ulg_nr.getD "") (v2_rows storage "ULG" lg_nrs)
  let gt_records := isortK (fun r => r.grundtext_nr.getD "") (v2_rows storage "Grundtext" lg_nrs)
  let fp_records := isortK (fun r => r.position_nr.getD "") (v2_rows storage "Folgeposition" lg_nrs)
  (v2_rows storage "LG" lg_nrs).foldl (fun acc r =>
    setAssoc acc r.lg_nr (v2_build_lg ulg_records gt_records fp_records r)) []

/-- Python `pos.startswith(lg_nr)` (on the character lists, since the core
    `String.startsWith` does not reduce in the kernel). -/
def strStarts (s p : String) : Bool :=
  p.data.isPrefixOf s.data

/-- The truthiness test
    `"ulg-liste" in lg and "ulg" in lg["ulg-liste"] and lg["ulg-liste"]["ulg"]`
    guarding the multi-LG collection. -/
def hasNonemptyUlgs (lg : Json) : Bool :=
  jhasK lg "ulg-liste" && jhasK (jgetD lg "ulg-liste" (.obj [])) "ulg"
    && pyTruthy (jgetD (jgetD lg "ulg-liste" (.obj [])) "ulg" (.arr []))

/-- The sort key `lg.get('@_nr', '')` of the final multi-LG sort (every entry
    carries the string `lg_nr` written by the reconstruction). -/
def lgSortKey (lg : Json) : String :=
  match jget lg "@_nr" with
  | some (.s v) => v
  | _ => ""

/-- One iteration of the multi-LG collection loop of step 4: skip LGs none of
    the position numbers starts with, filter the rest, and keep only filtered
    LGs whose ULG list is non-empty. -/
def v2_filtered_step (position_numbers : List String) (acc : List Json)
    (p : String × Json) : List Json :=
  if (position_numbers.filter (fun pos => strStarts pos p.1)).isEmpty then acc
  else if hasNonemptyUlgs
      (filter_json_by_full_nr p.2 (position_numbers.filter (fun pos => strStarts pos p.1)))
    then acc ++ [filter_json_by_full_nr p.2
      (position_numbers.filter (fun pos => strStarts pos p.1))]
  else acc

/-- The `filtered_lgs` list of the multi-LG branch of step 4. -/
def v2_filtered_lgs (lg_data : List (String × Json)) (position_numbers : List String) :
    List Json :=
  lg_data.foldl (v2_filtered_step position_numbers) []

/-- entity.py `fetch_and_filter_lg_by_position_numbers_v2` with the storage
    contents passed explicitly: parse the position numbers, bulk-"fetch" and
    reconstruct the involved LG trees, then filter with
    `filter_json_by_full_nr`.  A single reconstructed LG is returned directly
    (a dict), several are returned as a list (modelled by `.arr`), none as
    `{}`. -/
def fetch_and_filter_lg_by_position_numbers_v2 (storage : List RegRow)
    (position_numbers : List String) : Json :=
  if position_numbers.isEmpty then .obj []
  else if (v2_lg_nrs position_numbers).isEmpty then .obj []
  else
    match v2_lg_data storage position_numbers with
    | [] => .obj []
    | [(_, lg_json)] => filter_json_by_full_nr lg_json position_numbers
    | lg_data => .arr (isortK lgSortKey (v2_filtered_lgs lg_data position_numbers))

/-- The number attribute of a tree node, as read everywhere in entity.py
    (`str(node.get("@_nr"))`). -/
def nrOf (j : Json) : String :=
  pyStr (jget j "@_nr")

/-- The letter attribute of a Folgeposition (`str(fp.get("@_ftnr"))`). -/
def ftnrOf (j : Json) : String :=
  pyStr (jget j "@_ftnr")

def lgRow (t : Json) : RegRow :=
  ⟨"LG", nrOf t, none, none, none, some t⟩

def ulgRow (lgNr : String) (u : Json) : RegRow :=
  ⟨"ULG", lgNr, some (nrOf u), none, none, some u⟩

def gtRow (lgNr uNr : String) (g : Json) : RegRow :=
  ⟨"Grundtext", lgNr, some uNr, some (nrOf g), none, some g⟩

def fpRow (lgNr uNr gNr : String) (fp : Json) : RegRow :=
  ⟨"Folgeposition", lgNr, some uNr, some gNr, some (ftnrOf fp), some fp⟩

/-- Python `gt.get("ungeteilteposition", [])`. -/
def upList (g : Json) : List Json :=
  jitems (jgetD g "ungeteilteposition" (.arr []))

/-- The `regulations` rows inserted by data_services.py
    `process_and_store_data` (lines 244-432) for one LG tree, restricted to
    the columns v2 reads back (`searchable_text`, `embedding`, `full_nr` and
    `short_text` are omitted; `_get_embedding` is assumed to succeed, so the
    final embedding-validity filter drops no row).  Each row stores
    `_preserve_json_order` of its node as `entity_json`; an
    UngeteiltePosition row stores its parent Grundtext document; a Grundtext
    row and its Folgeposition rows are emitted only when the gt dict carries a
    "grundtext" key.  Number columns hold the node attributes, rendered with
    `pyStr` (the identity on the string-valued attributes of catalog data). -/
def flattenLG (t : Json) : List RegRow :=
  ⟨"LG", nrOf t, none, none, none, some (_preserve_json_order t)⟩ ::
    (srcUlgList t).flatMap (fun u =>
      ⟨"ULG", nrOf t, some (nrOf u), none, none, some (_preserve_json_order u)⟩ ::
        (gtList u).flatMap (fun g =>
          (upList g).map (fun pos =>
            ⟨"UngeteiltePosition", nrOf t, some (nrOf u), some (nrOf g),
              some (pyStr (jget pos "@_mfv")), some (_preserve_json_order g)⟩)
          ++ (if jhasK g "grundtext" then
              ⟨"Grundtext", nrOf t, some (nrOf u), some (nrOf g), none,
                some (_preserve_json_order g)⟩ ::
                (fpList g).map (fun fp =>
                  ⟨"Folgeposition", nrOf t, some (nrOf u), some (nrOf g),
                    some (ftnrOf fp), some (_preserve_json_order fp)⟩)
            else [])))

/-! Well-formedness of an LG tree: the structural invariant of the catalog
    data (spec section 3) on which the Python code is exception-free — every
    node is a dict, number/letter attributes are strings, the child-list keys
    are present — strengthened by three disciplines under which storage and
    retrieval cancel out exactly:
    sibling numbers and letters are strictly ascending (spec section 3 assumes
    they are unique; catalog order is their numeric order, which the bulk
    queries' `.order(col)` then reproduces); every Grundtext is a split
    position (it carries its "grundtext" key and no "ungeteilteposition"
    entries — v2 reads back only Grundtext/Folgeposition rows, which the
    ingestion emits only for split positions); and every node is a fixed point
    of `_preserve_json_order` (the ingestion stores the canonicalized node, so
    a tree authored in canonical key order is stored verbatim). -/

def isStrVal (o : Option Json) : Bool :=
  match o with
  | some (.s _) => true
  | _ => false

def isObjVal (o : Option Json) : Bool :=
  match o with
  | some (.obj _) => true
  | _ => false

def isArrVal (o : Option Json) : Bool :=
  match o with
  | some (.arr _) => true
  | _ => false

def chainStrictAsc : List String → Bool
  | [] => true
  | [_] => true
  | a :: b :: t => lexLt a b && chainStrictAsc (b :: t)

def wfFp (fp : Json) : Bool :=
  isStrVal (jget fp "@_ftnr") && (_preserve_json_order fp == fp)

def wfGt (g : Json) : Bool :=
  isStrVal (jget g "@_nr") && isArrVal (jget g "folgeposition")
    && (fpList g).all wfFp
    && chainStrictAsc ((fpList g).map ftnrOf)
    && jhasK g "grundtext" && (upList g).isEmpty
    && (_preserve_json_order g == g)

def wfUlg (u : Json) : Bool :=
  isStrVal (jget u "@_nr") && isObjVal (jget u "positionen")
    && isArrVal (jget (jgetD u "positionen" (.obj [])) "grundtextnr")
    && (gtList u).all wfGt
    && chainStrictAsc ((gtList u).map nrOf)
    && (_preserve_json_order u == u)

def wfLG (t : Json) : Bool :=
  isStrVal (jget t "@_nr") && isObjVal (jget t "ulg-liste")
    && isArrVal (jget (jgetD t "ulg-liste" (.obj [])) "ulg")
    && (srcUlgList t).all wfUlg
    && chainStrictAsc ((srcUlgList t).map nrOf)
    && (_preserve_json_order t == t)

/-! Concrete example data: the LG of spec section 8 ("Keep-set correctness"),
    an LG "00" containing ULG "11" with Grundtext "01" (follow-positions
    "A","B","C") and Grundtext "03" (follow-positions "A","B"). -/

def exFp (letter kw : String) : Json :=
  .obj [("pos-eigenschaften", .obj [("stichwort", .s kw)]), ("@_ftnr", .s letter)]

def exGt01 : Json :=
  .obj [("grundtext", .obj [("langtext", .s "GT01")]),
        ("folgeposition", .arr [exFp "A" "SA", exFp "B" "SB", exFp "C" "SC"]),
        ("@_nr", .s "01")]

def exGt03 : Json :=
  .obj [("grundtext", .obj [("langtext", .s "GT03")]),
        ("folgeposition", .arr [exFp "A" "TA", exFp "B" "TB"]),
        ("@_nr", .s "03")]

def exUlg11 : Json :=
  .obj [("ulg-eigenschaften", .obj [("bezeichnung", .s "U11")]),
        ("positionen", .obj [("grundtextnr", .arr [exGt01, exGt03])]),
        ("@_nr", .s "11")]

def exLG00 : Json :=
  .obj [("lg-eigenschaften", .obj [("bezeichnung", .s "L00")]),
        ("ulg-liste", .obj [("ulg", .arr [exUlg11])]),
        ("@_nr", .s "00")]

/-- The exact tree the keep-set filter must produce on the spec's example:
    ULG "11" with Grundtext "01" whole (all three follow-positions) and
    Grundtext "03" reduced to follow-position "A" only — and nothing else. -/
def exKeepExpected : Json :=
  .obj [("lg-eigenschaften", .obj [("bezeichnung", .s "L00")]),
        ("ulg-liste", .obj [("ulg", .arr [
          .obj [("ulg-eigenschaften", .obj [("bezeichnung", .s "U11")]),
                ("positionen", .obj [("grundtextnr", .arr [
                  exGt01,
                  .obj [("grundtext", .obj [("langtext", .s "GT03")]),
                        ("folgeposition", .arr [exFp "A" "TA"]),
                        ("@_nr", .s "03")]])]),
                ("@_nr", .s "11")]])]),
        ("@_nr", .s "00")]

/-- C1: Keep-set correctness on the spec's concrete example: on an LG "00"
    containing ULG "11" with Grundtext "01" (follow-positions "A","B","C") and
    Grundtext "03" (follow-positions "A","B"), `filter_json_by_full_nr` with
    the code set {"001101", "001103A"} returns exactly ULG "11" containing
    Grundtext "01" with all three follow-positions and Grundtext "03" with
    only follow-position "A", and nothing else. -/
theorem keep_set_example_correct :
    filter_json_by_full_nr exLG00 ["001101", "001103A"] = exKeepExpected := by decide

/-! C5 / C10: the error paths of `filter_json_entity`. -/

/-- The shape detected by lines 85-87 of entity.py, in their order of
    precedence (`is_lg` first). -/
def detectedShape (j : Json) : Option String :=
  if is_lg_shape j then some "LG"
  else if is_ulg_shape j then some "ULG"
  else if is_grundtext_shape j then some "Grundtext"
  else none

/-- A target entity type the detected shape cannot serve: anything but
    ULG/Grundtext/Folgeposition on an LG root, anything but
    Grundtext/Folgeposition on a ULG root, anything but Folgeposition on a
    Grundtext root. -/
def incompatibleTarget (shape target_entity_type : String) : Bool :=
  (shape == "LG" && !(target_entity_type == "ULG" || target_entity_type == "Grundtext"
      || target_entity_type == "Folgeposition"))
  || (shape == "ULG" && !(target_entity_type == "Grundtext"
      || target_entity_type == "Folgeposition"))
  || (shape == "Grundtext" && !(target_entity_type == "Folgeposition"))

/-- C5: Zoom precondition violation: for every root of a recognized shape and
    every target entity type incompatible with that shape, `filter_json_entity`
    takes the "Invalid target_entity_type" error path and returns the original
    input, never an ordinary filtered result. -/
theorem zoom_invalid_target_type (j : Json) (ttype tval : String)
    (tun tgn : Option String) (sh : String) (h1 : detectedShape j = some sh)
    (h2 : incompatibleTarget sh ttype = true) :
    filter_json_entity_run j ttype tval tun tgn = (.invalidTargetType, j, j) := by
  by_cases hlg : is_lg_shape j
  · simp [detectedShape, hlg] at h1
    subst h1
    have n1 : ttype ≠ "ULG" := fun hh => by subst hh; simp [incompatibleTarget] at h2
    have n2 : ttype ≠ "Grundtext" := fun hh => by subst hh; simp [incompatibleTarget] at h2
    have n3 : ttype ≠ "Folgeposition" := fun hh => by subst hh; simp [incompatibleTarget] at h2
    simp [filter_json_entity_run, hlg, n1, n2, n3]
  · by_cases hulg : is_ulg_shape j
    · simp [detectedShape, hlg, hulg] at h1
      subst h1
      have n1 : ttype ≠ "Grundtext" := fun hh => by subst hh; simp [incompatibleTarget] at h2
      have n2 : ttype ≠ "Folgeposition" := fun hh => by subst hh; simp [incompatibleTarget] at h2
      simp [filter_json_entity_run, hlg, hulg, n1, n2]
    · by_cases hgt : is_grundtext_shape j
      · simp [detectedShape, hlg, hulg, hgt] at h1
        subst h1
        have n1 : ttype ≠ "Folgeposition" := fun hh => by
          subst hh; simp [incompatibleTarget] at h2
        simp [filter_json_entity_run, hlg, hulg, hgt, n1]
      · simp [detectedShape, hlg, hulg, hgt] at h1

/-- C5 witness: a Grundtext-rooted call asked for a ULG signals the invalid
    target type. -/
theorem zoom_invalid_target_type_witness :
    detectedShape exGt01 = some "Grundtext" ∧ incompatibleTarget "Grundtext" "ULG" = true ∧
    filter_json_entity_run exGt01 "ULG" "11" none none
      = (.invalidTargetType, exGt01, exGt01) :=
  ⟨by decide, by decide,
    zoom_invalid_target_type exGt01 "ULG" "11" none none "Grundtext" (by decide) (by decide)⟩

/-- C10: Unrecognized-root passthrough: for every input dictionary that
    matches none of the three structural signatures, `filter_json_entity`
    takes the "not a valid LG, ULG, or Grundtext structure" path and returns a
    value equal to the input, for every target type and value (the branch
    performs only key-membership tests, so no exception can be raised). -/
theorem zoom_unrecognized_passthrough (j : Json) (ttype tval : String)
    (tun tgn : Option String) (h : detectedShape j = none) :
    filter_json_entity_run j ttype tval tun tgn = (.unrecognizedInput, j, j) := by
  by_cases hlg : is_lg_shape j
  · simp [detectedShape, hlg] at h
  · by_cases hulg : is_ulg_shape j
    · simp [detectedShape, hlg, hulg] at h
    · by_cases hgt : is_grundtext_shape j
      · simp [detectedShape, hlg, hulg, hgt] at h
      · simp [filter_json_entity_run, hlg, hulg, hgt]

/-- C10 witness: a dictionary with none of the signature keys is passed
    through unchanged. -/
theorem zoom_unrecognized_passthrough_witness :
    detectedShape (.obj [("foo", .s "bar")]) = none ∧
    filter_json_entity_run (.obj [("foo", .s "bar")]) "ULG" "11" none none
      = (.unrecognizedInput, .obj [("foo", .s "bar")], .obj [("foo", .s "bar")]) :=
  ⟨by decide, zoom_unrecognized_passthrough (.obj [("foo", .s "bar")]) "ULG" "11" none none
    (by decide)⟩

/-! C9: neither filter mutates its input. -/

theorem keep_run_fst (nrs : List String) (st : Json × Json) :
    (nrs.foldl (fun st nr => (st.1, keepStep st.1 st.2 nr)) st).1 = st.1 := by
  induction nrs generalizing st with
  | nil => rfl
  | cons nr nrs ih => simpa using ih (st.1, keepStep st.1 st.2 nr)

/-- C9: No input mutation: both filters return the caller's input object
    exactly as it was before the call (every Python write goes to the deep
    copy `result`/`updated_json` or to deep copies of looked-up nodes — the
    state-passing embeddings thread the input through every step and it comes
    back unchanged), so a root can be reused across filter calls. -/
theorem filters_leave_input_unchanged (j : Json) (nrs : List String)
    (ttype tval : String) (tun tgn : Option String) :
    (filter_json_by_full_nr_run j nrs).1 = j ∧
    (filter_json_entity_run j ttype tval tun tgn).2.1 = j := by
  constructor
  · unfold filter_json_by_full_nr_run
    by_cases h : nrs.isEmpty
    · simp [h]
    · simpa [h] using keep_run_fst nrs (j, emptyUlgs j)
  · simp only [filter_json_entity_run]
    split_ifs <;> rfl

/-! C6: position-code validation. -/

theorem matchesGrammarL_iff (letterOk : Char → Bool) (l : List Char) :
    matchesGrammarL letterOk l = true ↔
      ((l.length = 6 ∨ l.length = 7) ∧ (∀ c ∈ l.take 6, c.isDigit = true)
        ∧ ∀ c ∈ l.drop 6, letterOk c = true) := by
  rcases l with _ | ⟨a, _ | ⟨b, _ | ⟨c, _ | ⟨d, _ | ⟨e, _ | ⟨f, _ | ⟨g, _ | ⟨h8, t⟩⟩⟩⟩⟩⟩⟩⟩
  · simp [matchesGrammarL]
  · simp [matchesGrammarL]
  · simp [matchesGrammarL]
  · simp [matchesGrammarL]
  · simp [matchesGrammarL]
  · simp [matchesGrammarL]
  · simp [matchesGrammarL]
    tauto
  · simp [matchesGrammarL]
    tauto
  · simp [matchesGrammarL]

theorem matchFullNr_isSome_eq (s : String) :
    (matchFullNr s).isSome = matchesGrammarL Char.isUpper (dropFinalNl s.data) := by
  unfold matchFullNr
  generalize dropFinalNl s.data = l
  rcases l with _ | ⟨a, _ | ⟨b, _ | ⟨c, _ | ⟨d, _ | ⟨e, _ | ⟨f, _ | ⟨g, _ | ⟨h8, t⟩⟩⟩⟩⟩⟩⟩⟩ <;>
    simp [matchesGrammarL] <;> split_ifs <;> simp_all

/-- The `$`-before-final-newline tolerance of the model, matching Python
    `re.match` on the shared pattern: exactly one final newline is tolerated,
    after the optional letter as well, and two are not. -/
theorem validator_newline_tolerance :
    validate_position_number_format "001101\n" = true
    ∧ validate_position_number_format "001101A\n" = true
    ∧ validate_position_number_format "001101\n\n" = false := by decide

/-- C6 (amended): on strings of ASCII characters — the domain on which the
    ASCII model of `\d`, `[A-Z]` and `str.strip()` coincides with Python's
    Unicode semantics — `validate_position_number_format` accepts exactly six
    digits followed by an optional single trailing uppercase letter, with an
    optional final newline tolerated by re's `$`; the format check of
    `find_regulation_by_number` instead strips surrounding whitespace first and
    then accepts six digits followed by an optional trailing letter of either
    case (rejecting only the empty string outright).  The hypothesis delimits
    the modelled domain: Python additionally accepts non-ASCII Unicode decimal
    digits and strips non-ASCII whitespace. -/
theorem position_code_validation_characterized (s : String)
    (ha : s.data.all (fun c => c.toNat < 128) = true) :
    (validate_position_number_format s = true ↔
      (((dropFinalNl s.data).length = 6 ∨ (dropFinalNl s.data).length = 7)
        ∧ (∀ c ∈ (dropFinalNl s.data).take 6, c.isDigit = true)
        ∧ ∀ c ∈ (dropFinalNl s.data).drop 6, c.isUpper = true)) ∧
    (find_regulation_by_number_accepts s = true ↔
      (s ≠ ""
        ∧ ((pyStrip s).data.length = 6 ∨ (pyStrip s).data.length = 7)
        ∧ (∀ c ∈ (pyStrip s).data.take 6, c.isDigit = true)
        ∧ ∀ c ∈ (pyStrip s).data.drop 6, c.isAlpha = true)) := by
  constructor
  · rw [validate_position_number_format, matchFullNr_isSome_eq]
    exact matchesGrammarL_iff Char.isUpper (dropFinalNl s.data)
  · rw [find_regulation_by_number_accepts]
    by_cases h : s = ""
    · simp [h]
    · simp only [h, if_false]
      rw [matchesGrammarL_iff Char.isAlpha (pyStrip s).data]
      simp [h]

theorem position_code_validation_characterized_witness :
    ("001101a" : String).data.all (fun c => c.toNat < 128) = true
    ∧ ((validate_position_number_format "001101a" = true ↔
        (((dropFinalNl ("001101a" : String).data).length = 6
            ∨ (dropFinalNl ("001101a" : String).data).length = 7)
          ∧ (∀ c ∈ (dropFinalNl ("001101a" : String).data).take 6, c.isDigit = true)
          ∧ ∀ c ∈ (dropFinalNl ("001101a" : String).data).drop 6, c.isUpper = true)) ∧
      (find_regulation_by_number_accepts "001101a" = true ↔
        (("001101a" : String) ≠ ""
          ∧ ((pyStrip "001101a").data.length = 6 ∨ (pyStrip "001101a").data.length = 7)
          ∧ (∀ c ∈ (pyStrip "001101a").data.take 6, c.isDigit = true)
          ∧ ∀ c ∈ (pyStrip "001101a").data.drop 6, c.isAlpha = true))) :=
  ⟨by decide, position_code_validation_characterized "001101a" (by decide)⟩

/-- C6 counterexample: the claim "validation succeeds iff the string is six
    digits plus an optional trailing uppercase letter" is false for the cited
    `find_regulation_by_number`: "001101a" carries a lowercase letter, is
    rejected by `validate_position_number_format`, yet passes the format check
    of `find_regulation_by_number` (which then proceeds to the database
    query). -/
theorem lowercase_letter_validator_divergence :
    validate_position_number_format "001101a" = false ∧
    find_regulation_by_number_accepts "001101a" = true := by decide

/-! C7: idempotence of `_preserve_json_order`. -/

theorem getFs_append_some (a b : List (String × Json)) (k : String) (v : Json)
    (h : getFs a k = some v) : getFs (a ++ b) k = some v := by
  induction a with
  | nil => simp [getFs] at h
  | cons p t ih =>
      obtain ⟨k0, v0⟩ := p
      by_cases h0 : k0 = k
      · simp [getFs, h0] at h ⊢
        exact h
      · simp [getFs, h0] at h ⊢
        exact ih h

theorem getFs_append_none (a b : List (String × Json)) (k : String)
    (h : getFs a k = none) : getFs (a ++ b) k = getFs b k := by
  induction a with
  | nil => simp
  | cons p t ih =>
      obtain ⟨k0, v0⟩ := p
      by_cases h0 : k0 = k
      · simp [getFs, h0] at h
      · simp [getFs, h0] at h ⊢
        exact ih h

theorem hasStr_cons_ne (rest : List String) (k0 k : String) (h : ¬ k0 = k) :
    hasStr (k0 :: rest) k = hasStr rest k := by
  simp [hasStr, h]

theorem hasStr_of_mem (l : List String) (k : String) (h : k ∈ l) : hasStr l k = true := by
  induction l with
  | nil => cases h
  | cons a t ih =>
      rcases List.mem_cons.mp h with rfl | h'
      · simp [hasStr]
      · simp [hasStr, ih h']

theorem getFs_part1Fields (fs : List (String × Json)) (pred : List String) (k : String) :
    getFs (part1Fields fs pred) k = if hasStr pred k then getFs fs k else none := by
  induction pred with
  | nil => simp [part1Fields, getFs, hasStr]
  | cons k0 rest ih =>
      cases hg : getFs fs k0 with
      | none =>
          simp only [part1Fields, hg]
          rw [ih]
          by_cases hk : k0 = k
          · subst hk
            cases hr : hasStr rest k0 <;> simp [hasStr, hr, hg]
          · rw [hasStr_cons_ne rest k0 k hk]
      | some v =>
          simp only [part1Fields, hg]
          by_cases hk : k0 = k
          · subst hk
            simp [getFs, hasStr, hg]
          · simp only [getFs, beq_iff_eq, hk, if_false]
            rw [ih, hasStr_cons_ne rest k0 k hk]

theorem getFs_filter_hasStr_keep (fs : List (String × Json)) (pred : List String)
    (k : String) (h : hasStr pred k = false) :
    getFs (fs.filter (fun kv => !hasStr pred kv.1)) k = getFs fs k := by
  induction fs with
  | nil => simp
  | cons q t ih =>
      obtain ⟨k0, v0⟩ := q
      cases hp0 : hasStr pred k0
      · by_cases hk : k0 = k
        · subst hk
          simp [List.filter_cons, hp0, getFs]
        · simp [List.filter_cons, hp0, getFs, hk, ih]
      · have hk : k0 ≠ k := fun hh => by rw [hh, h] at hp0; cases hp0
        simp [List.filter_cons, hp0, getFs, hk, ih]

theorem getFs_filter_hasStr_drop (fs : List (String × Json)) (pred : List String)
    (k : String) (h : hasStr pred k = true) :
    getFs (fs.filter (fun kv => !hasStr pred kv.1)) k = none := by
  induction fs with
  | nil => simp [getFs]
  | cons q t ih =>
      obtain ⟨k0, v0⟩ := q
      cases hp0 : hasStr pred k0
      · have hk : k0 ≠ k := fun hh => by rw [hh, h] at hp0; cases hp0
        simp [List.filter_cons, hp0, getFs, hk, ih]
      · simp [List.filter_cons, hp0, ih]

theorem getFs_reorderFields (fs : List (String × Json)) (k : String) :
    getFs (reorderFields fs) k = getFs fs k := by
  unfold reorderFields
  cases hc : hasStr (KEY_ORDER_MAP (_get_object_type fs)) k
  · have h1 : getFs (part1Fields fs (KEY_ORDER_MAP (_get_object_type fs))) k = none := by
      rw [getFs_part1Fields, hc]
      rfl
    rw [getFs_append_none _ _ _ h1]
    exact getFs_filter_hasStr_keep fs _ k hc
  · have h1 : getFs (part1Fields fs (KEY_ORDER_MAP (_get_object_type fs))) k
        = getFs fs k := by
      rw [getFs_part1Fields, hc]
      rfl
    cases hg : getFs fs k with
    | some v =>
        rw [hg] at h1
        exact getFs_append_some _ _ _ _ h1
    | none =>
        rw [hg] at h1
        rw [getFs_append_none _ _ _ h1]
        exact getFs_filter_hasStr_drop fs _ k hc

theorem hasKeyFs_reorderFields (fs : List (String × Json)) (k : String) :
    hasKeyFs (reorderFields fs) k = hasKeyFs fs k := by
  simp [hasKeyFs, getFs_reorderFields]

theorem type_reorderFields (fs : List (String × Json)) :
    _get_object_type (reorderFields fs) = _get_object_type fs := by
  simp [_get_object_type, hasKeyFs_reorderFields]

theorem filter_part1Fields_empty (fs : List (String × Json)) (sub pred : List String)
    (h : ∀ k ∈ sub, hasStr pred k = true) :
    (part1Fields fs sub).filter (fun kv => !hasStr pred kv.1) = [] := by
  induction sub with
  | nil => simp [part1Fields]
  | cons k0 rest ih =>
      cases hg : getFs fs k0 with
      | none =>
          simp only [part1Fields, hg]
          exact ih (fun k hk => h k (List.mem_cons_of_mem _ hk))
      | some v =>
          simp only [part1Fields, hg]
          have hc := h k0 (List.mem_cons_self k0 rest)
          rw [List.filter_cons, if_neg (by simp [hc])]
          exact ih (fun k hk => h k (List.mem_cons_of_mem _ hk))

theorem filter_filter_self {α : Type} (p : α → Bool) (l : List α) :
    (l.filter p).filter p = l.filter p := by
  induction l with
  | nil => rfl
  | cons x t ih =>
      cases hp : p x
      · simp [List.filter_cons, hp, ih]
      · simp [List.filter_cons, hp, ih]

theorem part1Fields_congr (fs gs : List (String × Json)) (pred : List String)
    (h : ∀ k, getFs fs k = getFs gs k) : part1Fields fs pred = part1Fields gs pred := by
  induction pred with
  | nil => rfl
  | cons k0 rest ih =>
      simp only [part1Fields, h k0]
      cases getFs gs k0 <;> simp [ih]

theorem reorderFields_reorderFields (fs : List (String × Json)) :
    reorderFields (reorderFields fs) = reorderFields fs := by
  conv_lhs => rw [reorderFields, type_reorderFields]
  have hpart1 : part1Fields (reorderFields fs) (KEY_ORDER_MAP (_get_object_type fs))
      = part1Fields fs (KEY_ORDER_MAP (_get_object_type fs)) :=
    part1Fields_congr _ _ _ (getFs_reorderFields fs)
  rw [hpart1]
  have hmem : ∀ k ∈ KEY_ORDER_MAP (_get_object_type fs),
      hasStr (KEY_ORDER_MAP (_get_object_type fs)) k = true :=
    fun k hk => hasStr_of_mem _ k hk
  have hpart2 : (reorderFields fs).filter
      (fun kv => !hasStr (KEY_ORDER_MAP (_get_object_type fs)) kv.1)
        = fs.filter (fun kv => !hasStr (KEY_ORDER_MAP (_get_object_type fs)) kv.1) := by
    rw [reorderFields]
    rw [List.filter_append]
    rw [filter_part1Fields_empty fs _ _ hmem]
    rw [filter_filter_self]
    simp
  rw [hpart2]
  rw [reorderFields]

theorem getFs_canonFs (fs : List (String × Json)) (k : String) :
    getFs (canonFs fs) k = (getFs fs k).map _preserve_json_order := by
  induction fs with
  | nil => simp [canonFs, getFs]
  | cons q t ih =>
      obtain ⟨k0, v0⟩ := q
      by_cases hk : k0 = k
      · simp [canonFs, getFs, hk]
      · simp [canonFs, getFs, hk, ih]

theorem hasKeyFs_canonFs (fs : List (String × Json)) (k : String) :
    hasKeyFs (canonFs fs) k = hasKeyFs fs k := by
  simp [hasKeyFs, getFs_canonFs]

theorem type_canonFs (fs : List (String × Json)) :
    _get_object_type (canonFs fs) = _get_object_type fs := by
  simp [_get_object_type, hasKeyFs_canonFs]

theorem canonFs_append (a b : List (String × Json)) :
    canonFs (a ++ b) = canonFs a ++ canonFs b := by
  induction a with
  | nil => simp [canonFs]
  | cons q t ih =>
      obtain ⟨k0, v0⟩ := q
      simp [canonFs, ih]

theorem canonFs_filter_hasStr (fs : List (String × Json)) (pred : List String) :
    canonFs (fs.filter (fun kv => !hasStr pred kv.1))
      = (canonFs fs).filter (fun kv => !hasStr pred kv.1) := by
  induction fs with
  | nil => rfl
  | cons q t ih =>
      obtain ⟨k0, v0⟩ := q
      cases hp : hasStr pred k0
      · simp [List.filter_cons, hp, canonFs, ih]
      · simp [List.filter_cons, hp, canonFs, ih]

theorem canonFs_part1Fields (fs : List (String × Json)) (pred : List String) :
    canonFs (part1Fields fs pred) = part1Fields (canonFs fs) pred := by
  induction pred with
  | nil => rfl
  | cons k0 rest ih =>
      cases hg : getFs fs k0 with
      | none =>
          simp only [part1Fields, hg, getFs_canonFs]
          exact ih
      | some v =>
          simp only [part1Fields, hg, getFs_canonFs]
          simp [canonFs, ih]

theorem canonFs_reorderFields (fs : List (String × Json)) :
    canonFs (reorderFields fs) = reorderFields (canonFs fs) := by
  rw [reorderFields, reorderFields, type_canonFs]
  rw [canonFs_append, canonFs_filter_hasStr, canonFs_part1Fields]

mutual
theorem canon_idem (j : Json) :
    _preserve_json_order (_preserve_json_order j) = _preserve_json_order j := by
  cases j with
  | obj fs =>
      show Json.obj (reorderFields (canonFs (reorderFields (canonFs fs))))
          = Json.obj (reorderFields (canonFs fs))
      rw [canonFs_reorderFields, canonFs_idem fs, reorderFields_reorderFields]
  | arr l =>
      show Json.arr (canonL (canonL l)) = Json.arr (canonL l)
      rw [canonL_idem l]
  | null => rfl
  | b v => rfl
  | n v => rfl
  | s v => rfl
theorem canonL_idem (l : List Json) : canonL (canonL l) = canonL l := by
  cases l with
  | nil => rfl
  | cons x xs =>
      show _preserve_json_order (_preserve_json_order x) :: canonL (canonL xs)
          = _preserve_json_order x :: canonL xs
      rw [canon_idem x, canonL_idem xs]
theorem canonFs_idem (fs : List (String × Json)) : canonFs (canonFs fs) = canonFs fs := by
  cases fs with
  | nil => rfl
  | cons q t =>
      obtain ⟨k, v⟩ := q
      show (k, _preserve_json_order (_preserve_json_order v)) :: canonFs (canonFs t)
          = (k, _preserve_json_order v) :: canonFs t
      rw [canon_idem v, canonFs_idem t]
end

/-- C7: Canonicalization is idempotent: for every JSON value — dicts, lists,
    scalars, arbitrarily nested — applying `_preserve_json_order` twice yields
    exactly the same result as applying it once. -/
theorem preserve_json_order_idempotent (j : Json) :
    _preserve_json_order (_preserve_json_order j) = _preserve_json_order j :=
  canon_idem j

/-! C8: which ULGs can appear in the output of the keep-set filter. -/

theorem ulgListOf_setUlgList_mem (res : Json) (l : List Json) (u : Json)
    (h : u ∈ ulgListOf (setUlgList res l)) : u ∈ l := by
  cases res with
  | obj fs =>
      simp only [ulgListOf, setUlgList, jgetD] at h
      rw [jget_jset_self _ _ _ ⟨fs, rfl⟩] at h
      simp only [Option.getD_some] at h
      cases hul : (jget (Json.obj fs) "ulg-liste").getD (.obj []) with
      | obj ufs =>
          rw [hul] at h
          simp only [jset, jget] at h
          rw [getFs_setFs_self] at h
          simpa [jitems] using h
      | null => rw [hul] at h; simp [jset, jget, jitems, getFs] at h
      | b v => rw [hul] at h; simp [jset, jget, jitems, getFs] at h
      | n v => rw [hul] at h; simp [jset, jget, jitems, getFs] at h
      | s v => rw [hul] at h; simp [jset, jget, jitems, getFs] at h
      | arr l2 => rw [hul] at h; simp [jset, jget, jitems, getFs] at h
  | null => simp [setUlgList, jset, ulgListOf, jgetD, jget, jitems, getFs] at h
  | b v => simp [setUlgList, jset, ulgListOf, jgetD, jget, jitems, getFs] at h
  | n v => simp [setUlgList, jset, ulgListOf, jgetD, jget, jitems, getFs] at h
  | s v => simp [setUlgList, jset, ulgListOf, jgetD, jget, jitems, getFs] at h
  | arr l2 => simp [setUlgList, jset, ulgListOf, jgetD, jget, jitems, getFs] at h

theorem ulgListOf_emptyUlgs (j : Json) : ulgListOf (emptyUlgs j) = [] := by
  unfold emptyUlgs
  cases hc : jhasK j "ulg-liste" && jhasK (jgetD j "ulg-liste" (.obj [])) "ulg"
  · show ulgListOf j = []
    cases hand : jhasK j "ulg-liste" with
    | false =>
        unfold jhasK at hand
        cases hg : jget j "ulg-liste" with
        | some v => rw [hg] at hand; simp at hand
        | none =>
            unfold ulgListOf
            simp only [jgetD]
            rw [hg]
            simp [jget, jitems, getFs]
    | true =>
        have h2 : jhasK (jgetD j "ulg-liste" (.obj [])) "ulg" = false := by
          cases h3 : jhasK (jgetD j "ulg-liste" (.obj [])) "ulg"
          · rfl
          · rw [hand, h3] at hc; cases hc
        unfold jhasK at h2
        cases hg : jget (jgetD j "ulg-liste" (.obj [])) "ulg" with
        | some v => rw [hg] at h2; simp at h2
        | none =>
            unfold ulgListOf
            simp only [jgetD] at hg ⊢
            rw [hg]
            simp [jitems]
  · show ulgListOf (setUlgList j []) = []
    cases he : ulgListOf (setUlgList j []) with
    | nil => rfl
    | cons x t =>
        have hx : x ∈ ulgListOf (setUlgList j []) := by
          rw [he]
          exact List.mem_cons_self x t
        cases ulgListOf_setUlgList_mem j [] x hx

theorem mem_updFirst {α : Type} (p : α → Bool) (f : α → α) (l : List α) (u : α)
    (h : u ∈ updFirst p f l) : u ∈ l ∨ ∃ x, x ∈ l ∧ p x = true ∧ u = f x := by
  induction l with
  | nil => cases h
  | cons x xs ih =>
      by_cases hp : p x
      · simp only [updFirst, hp, if_true] at h
        rcases List.mem_cons.mp h with rfl | h'
        · exact Or.inr ⟨x, List.mem_cons_self x xs, hp, rfl⟩
        · exact Or.inl (List.mem_cons_of_mem _ h')
      · simp only [updFirst, hp, if_false] at h
        rcases List.mem_cons.mp h with rfl | h'
        · exact Or.inl (List.mem_cons_self u xs)
        · rcases ih h' with h'' | ⟨x0, hx0, hpx0, rfl⟩
          · exact Or.inl (List.mem_cons_of_mem _ h'')
          · exact Or.inr ⟨x0, List.mem_cons_of_mem _ hx0, hpx0, rfl⟩

/-- `keepGtStep` only rewrites the "positionen" key of the result ULG, so the
    ULG's own number attribute is untouched. -/
theorem jget_nr_keepGtStep (target_ulg : Json) (gt_nr fp_letter : String)
    (result_ulg : Json) :
    jget (keepGtStep target_ulg gt_nr fp_letter result_ulg) "@_nr"
      = jget result_ulg "@_nr" := by
  have hne : ("@_nr" : String) ≠ "positionen" := by decide
  unfold keepGtStep
  split
  · rfl
  · split
    · split
      · split
        · rfl
        · split
          · rfl
          · unfold setGtList
            exact jget_jset_ne _ _ _ _ hne
      · rfl
    · split
      · unfold setGtList
        exact jget_jset_ne _ _ _ _ hne
      · unfold setGtList
        exact jget_jset_ne _ _ _ _ hne

/-- The provenance each output ULG must have: some code in the list parses,
    its ULG component is this ULG's number, and a ULG with that number exists
    in the input tree. -/
def ulgProvenance (inp : Json) (nrs : List String) (u : Json) : Prop :=
  ∃ nr ∈ nrs, ∃ g, matchFullNr nr = some g ∧ pyStr (jget u "@_nr") = g.2.1
    ∧ (findByNr (srcUlgList inp) "@_nr" g.2.1).isSome = true

theorem keepStep_prov (inp : Json) (nrs : List String) (res : Json) (nr : String)
    (hnr : nr ∈ nrs) (hres : ∀ u ∈ ulgListOf res, ulgProvenance inp nrs u) :
    ∀ u ∈ ulgListOf (keepStep inp res nr), ulgProvenance inp nrs u := by
  intro u hu
  unfold keepStep at hu
  cases hm : matchFullNr nr with
  | none => rw [hm] at hu; exact hres u hu
  | some g =>
      rw [hm] at hu
      simp only [keepStepGo] at hu
      cases hf : findByNr (srcUlgList inp) "@_nr" g.2.1 with
      | none => simp only [hf] at hu; exact hres u hu
      | some target_ulg =>
          simp only [hf] at hu
          by_cases hex : (ulgListOf res).any (fun u0 => pyStr (jget u0 "@_nr") == g.2.1)
          · rw [if_pos hex] at hu
            rcases mem_updFirst _ _ _ u (ulgListOf_setUlgList_mem _ _ _ hu) with h | ⟨x, hx, hpx, rfl⟩
            · exact hres u h
            · have hq := hres x hx
              unfold ulgProvenance at hq ⊢
              rw [jget_nr_keepGtStep]
              exact hq
          · rw [if_neg hex] at hu
            rcases List.mem_append.mp (ulgListOf_setUlgList_mem _ _ _ hu) with h | h
            · exact hres u h
            · rcases List.mem_singleton.mp h with rfl
              refine ⟨nr, hnr, g, hm, ?_, by rw [hf]; rfl⟩
              rw [jget_nr_keepGtStep]
              have hpred := List.find?_some hf
              unfold setGtList
              rw [jget_jset_ne _ _ _ _ (by decide)]
              simpa using hpred

theorem keep_fold_prov (inp : Json) (nrs : List String) (l : List String) (res : Json)
    (hl : ∀ nr ∈ l, nr ∈ nrs) (hres : ∀ u ∈ ulgListOf res, ulgProvenance inp nrs u) :
    ∀ u ∈ ulgListOf ((l.foldl (fun st nr => (st.1, keepStep st.1 st.2 nr)) (inp, res)).2),
      ulgProvenance inp nrs u := by
  induction l generalizing res with
  | nil => simpa using hres
  | cons nr t ih =>
      intro u hu
      refine ih (keepStep inp res nr) (fun x hx => hl x (List.mem_cons_of_mem _ hx))
        (keepStep_prov inp nrs res nr (hl nr (List.mem_cons_self nr t)) hres) u ?_
      simpa using hu

/-- C8 (amended): a ULG appears in the keep-set result only if some code in
    the list parses, names that ULG's number, and that ULG exists in the input
    tree — the referenced Grundtext need not exist, in which case the ULG is
    retained with an empty Grundtext list (see the counterexample). -/
theorem keep_ulg_provenance (inp : Json) (nrs : List String) (u : Json)
    (hu : u ∈ ulgListOf (filter_json_by_full_nr inp nrs)) :
    ∃ nr ∈ nrs, ∃ g, matchFullNr nr = some g ∧ pyStr (jget u "@_nr") = g.2.1
      ∧ (findByNr (srcUlgList inp) "@_nr" g.2.1).isSome = true := by
  unfold filter_json_by_full_nr filter_json_by_full_nr_run at hu
  by_cases he : nrs.isEmpty
  · rw [if_pos he] at hu
    simp only [ulgListOf_emptyUlgs] at hu
    cases hu
  · rw [if_neg he] at hu
    exact keep_fold_prov inp nrs nrs (emptyUlgs inp) (fun x hx => hx)
      (by rw [ulgListOf_emptyUlgs]; intro x hx; cases hx) u hu

/-- C8 witness for the amended claim. -/
theorem keep_ulg_provenance_witness :
    ∃ nr ∈ ["001101"], ∃ g, matchFullNr nr = some g
      ∧ pyStr (jget ((ulgListOf (filter_json_by_full_nr exLG00 ["001101"])).headD .null)
          "@_nr") = g.2.1
      ∧ (findByNr (srcUlgList exLG00) "@_nr" g.2.1).isSome = true :=
  keep_ulg_provenance exLG00 ["001101"]
    ((ulgListOf (filter_json_by_full_nr exLG00 ["001101"])).headD .null) (by decide)

/-- The output of the keep-set filter on the example LG for the code "001199"
    (ULG "11" exists, Grundtext "99" does not): ULG "11" is retained with an
    empty Grundtext list. -/
def exKeepC8 : Json :=
  .obj [("lg-eigenschaften", .obj [("bezeichnung", .s "L00")]),
        ("ulg-liste", .obj [("ulg", .arr [
          .obj [("ulg-eigenschaften", .obj [("bezeichnung", .s "U11")]),
                ("positionen", .obj [("grundtextnr", .arr [])]),
                ("@_nr", .s "11")]])]),
        ("@_nr", .s "00")]

/-- C8 counterexample: a code whose ULG exists but whose Grundtext does not
    leaves that ULG in the result with an empty Grundtext list, contradicting
    "the output contains a ULG only if at least one Grundtext was actually
    retained under it". -/
theorem keep_empty_ulg_counterexample :
    filter_json_by_full_nr exLG00 ["001199"] = exKeepC8
      ∧ ulgListOf exKeepC8 ≠ []
      ∧ gtList ((ulgListOf exKeepC8).headD .null) = [] := by decide

/-! C4: time-of-insertion semantics of the keep-set filter. -/

theorem any_of_find? {α : Type} (p : α → Bool) (l : List α) (x : α)
    (h : l.find? p = some x) : l.any p = true :=
  List.any_eq_true.mpr ⟨x, List.mem_of_find?_eq_some h, List.find?_some h⟩

theorem updFirst_find?_self {α : Type} (p : α → Bool) (f : α → α) (l : List α) (x : α)
    (h : l.find? p = some x) (hf : f x = x) : updFirst p f l = l := by
  induction l with
  | nil => cases h
  | cons y ys ih =>
      cases hp : p y
      · rw [List.find?_cons_of_neg _ (by simp [hp])] at h
        simp [updFirst, hp, ih h]
      · rw [List.find?_cons_of_pos _ (by simp [hp])] at h
        have hxy : y = x := by injection h
        subst hxy
        simp [updFirst, hp, hf]

theorem jget_obj (fs : List (String × Json)) (k : String) :
    jget (Json.obj fs) k = getFs fs k := rfl

theorem jgetD_eq (j : Json) (k : String) (d : Json) :
    jgetD j k d = (jget j k).getD d := rfl

/-- When the result already holds a ULG list, rewriting it with its own value
    is a no-op (the model of the Python paths that mutate nothing). -/
theorem setUlgList_self (res : Json) (h : ulgListOf res ≠ []) :
    setUlgList res (ulgListOf res) = res := by
  obtain ⟨fs, rfl⟩ : ∃ fs, res = Json.obj fs := by
    cases res with
    | obj fs => exact ⟨fs, rfl⟩
    | null => exact absurd rfl h
    | b v => exact absurd rfl h
    | n v => exact absurd rfl h
    | s v => exact absurd rfl h
    | arr l => exact absurd rfl h
  cases hul : getFs fs "ulg-liste" with
  | none =>
      exfalso
      apply h
      unfold ulgListOf
      rw [jgetD_eq, jgetD_eq, jget_obj, hul]
      rfl
  | some ul =>
      cases ul with
      | obj ufs =>
          cases hug : getFs ufs "ulg" with
          | none =>
              exfalso
              apply h
              unfold ulgListOf
              rw [jgetD_eq, jgetD_eq, jget_obj, hul]
              show jitems ((jget (Json.obj ufs) "ulg").getD (.arr [])) = []
              rw [jget_obj, hug]
              rfl
          | some v =>
              cases v with
              | arr l =>
                  have he : ulgListOf (Json.obj fs) = l := by
                    unfold ulgListOf
                    rw [jgetD_eq, jgetD_eq, jget_obj, hul]
                    show jitems ((jget (Json.obj ufs) "ulg").getD (.arr [])) = l
                    rw [jget_obj, hug]
                    rfl
                  rw [he]
                  unfold setUlgList
                  rw [jgetD_eq, jget_obj, hul]
                  show jset (Json.obj fs) "ulg-liste"
                      (jset (Json.obj ufs) "ulg" (Json.arr l)) = Json.obj fs
                  rw [jset_same _ _ _ (show jget (Json.obj ufs) "ulg" = some (Json.arr l) from hug)]
                  exact jset_same _ _ _
                    (show jget (Json.obj fs) "ulg-liste" = some (Json.obj ufs) from hul)
              | null =>
                  exfalso
                  apply h
                  unfold ulgListOf
                  rw [jgetD_eq, jgetD_eq, jget_obj, hul]
                  show jitems ((jget (Json.obj ufs) "ulg").getD (.arr [])) = []
                  rw [jget_obj, hug]
                  rfl
              | b bv =>
                  exfalso
                  apply h
                  unfold ulgListOf
                  rw [jgetD_eq, jgetD_eq, jget_obj, hul]
                  show jitems ((jget (Json.obj ufs) "ulg").getD (.arr [])) = []
                  rw [jget_obj, hug]
                  rfl
              | n nv =>
                  exfalso
                  apply h
                  unfold ulgListOf
                  rw [jgetD_eq, jgetD_eq, jget_obj, hul]
                  show jitems ((jget (Json.obj ufs) "ulg").getD (.arr [])) = []
                  rw [jget_obj, hug]
                  rfl
              | s sv =>
                  exfalso
                  apply h
                  unfold ulgListOf
                  rw [jgetD_eq, jgetD_eq, jget_obj, hul]
                  show jitems ((jget (Json.obj ufs) "ulg").getD (.arr [])) = []
                  rw [jget_obj, hug]
                  rfl
              | obj o =>
                  exfalso
                  apply h
                  unfold ulgListOf
                  rw [jgetD_eq, jgetD_eq, jget_obj, hul]
                  show jitems ((jget (Json.obj ufs) "ulg").getD (.arr [])) = []
                  rw [jget_obj, hug]
                  rfl
      | null =>
          exact absurd (by unfold ulgListOf; rw [jgetD_eq, jgetD_eq, jget_obj, hul]; rfl) h
      | b bv =>
          exact absurd (by unfold ulgListOf; rw [jgetD_eq, jgetD_eq, jget_obj, hul]; rfl) h
      | n nv =>
          exact absurd (by unfold ulgListOf; rw [jgetD_eq, jgetD_eq, jget_obj, hul]; rfl) h
      | s sv =>
          exact absurd (by unfold ulgListOf; rw [jgetD_eq, jgetD_eq, jget_obj, hul]; rfl) h
      | arr av =>
          exact absurd (by unfold ulgListOf; rw [jgetD_eq, jgetD_eq, jget_obj, hul]; rfl) h

/-- C4: Keep-set insertion-time semantics.  Suppose a code parses into groups
    `g`, its ULG and Grundtext exist in the input (`tu`, `tg`), and the partial
    result already holds a copy of that ULG (`ru`) containing a copy of that
    Grundtext (`eg`).  Then (a) if the code carries a letter and `eg` is a
    whole-Grundtext copy (its follow-position list equals the input
    Grundtext's), processing the code leaves the result unchanged; and (b) if
    the code requests the whole Grundtext, processing it leaves the result
    unchanged whatever `eg` holds — a partial copy is not upgraded. -/
theorem keep_insertion_time_semantics (inp res : Json) (nr : String)
    (g : String × String × String × String) (hm : matchFullNr nr = some g)
    (tu : Json) (htu : findByNr (srcUlgList inp) "@_nr" g.2.1 = some tu)
    (tg : Json) (htg : findByNr (gtList tu) "@_nr" g.2.2.1 = some tg)
    (ru : Json) (hru : findByNr (ulgListOf res) "@_nr" g.2.1 = some ru)
    (eg : Json) (heg : findByNr (gtList ru) "@_nr" g.2.2.1 = some eg) :
    (g.2.2.2 ≠ "" → fpList eg = fpList tg → keepStep inp res nr = res) ∧
    (g.2.2.2 = "" → keepStep inp res nr = res) := by
  have hex : (ulgListOf res).any (fun u => pyStr (jget u "@_nr") == g.2.1) = true :=
    any_of_find? _ _ ru hru
  have hne : ulgListOf res ≠ [] := by
    intro hnil
    rw [hnil] at hru
    cases hru
  have hstep : ∀ hke : keepGtStep tu g.2.2.1 g.2.2.2 ru = ru, keepStep inp res nr = res := by
    intro hke
    unfold keepStep keepStepGo
    simp only [hm, htu]
    rw [if_pos hex]
    rw [updFirst_find?_self _ _ _ ru hru hke]
    exact setUlgList_self res hne
  constructor
  · intro hfp h5
    apply hstep
    unfold keepGtStep
    simp only [htg, heg]
    rw [if_pos hfp]
    cases hany : ((fpList eg).map (fun fp => jget fp "@_ftnr")).any
        (fun o => o == some (.s g.2.2.2)) with
    | true => rfl
    | false =>
        rw [if_neg (show ¬ (false = true) by decide)]
        have hnone : (fpList tg).find? (fun fp => jget fp "@_ftnr" == some (.s g.2.2.2))
            = none := by
          cases hfind : (fpList tg).find? (fun fp => jget fp "@_ftnr" == some (.s g.2.2.2)) with
          | none => rfl
          | some fp =>
              exfalso
              have hmem : fp ∈ fpList tg := List.mem_of_find?_eq_some hfind
              have hpred := List.find?_some hfind
              rw [← h5] at hmem
              have : ((fpList eg).map (fun fp => jget fp "@_ftnr")).any
                  (fun o => o == some (.s g.2.2.2)) = true :=
                List.any_eq_true.mpr ⟨jget fp "@_ftnr", List.mem_map_of_mem _ hmem, hpred⟩
              rw [hany] at this
              cases this
        simp only [hnone]
  · intro hfp
    apply hstep
    unfold keepGtStep
    simp only [htg, heg]
    rw [if_neg (by simp [hfp])]

/-- C4 witness trees: the result-ULG copies after keeping "001101" (whole
    Grundtext 01) and after keeping only "001101A". -/
def exGt01A : Json :=
  .obj [("grundtext", .obj [("langtext", .s "GT01")]),
        ("folgeposition", .arr [exFp "A" "SA"]),
        ("@_nr", .s "01")]

theorem keep_insertion_time_semantics_witness :
    keepStep exLG00 (filter_json_by_full_nr exLG00 ["001101"]) "001101B"
        = filter_json_by_full_nr exLG00 ["001101"]
      ∧ keepStep exLG00 (filter_json_by_full_nr exLG00 ["001101A"]) "001101"
        = filter_json_by_full_nr exLG00 ["001101A"] :=
  ⟨(keep_insertion_time_semantics exLG00 (filter_json_by_full_nr exLG00 ["001101"])
      "001101B" ("00", "11", "01", "B") (by decide) exUlg11 (by decide) exGt01 (by decide)
      (.obj [("ulg-eigenschaften", .obj [("bezeichnung", .s "U11")]),
             ("positionen", .obj [("grundtextnr", .arr [exGt01])]),
             ("@_nr", .s "11")]) (by decide) exGt01 (by decide)).1
        (by decide) (by decide),
   (keep_insertion_time_semantics exLG00 (filter_json_by_full_nr exLG00 ["001101A"])
      "001101" ("00", "11", "01", "") (by decide) exUlg11 (by decide) exGt01 (by decide)
      (.obj [("ulg-eigenschaften", .obj [("bezeichnung", .s "U11")]),
             ("positionen", .obj [("grundtextnr", .arr [exGt01A])]),
             ("@_nr", .s "11")]) (by decide) exGt01A (by decide)).2 rfl⟩

/-! C3: the TreeReconstructor output shape.  The single-LG branch returns the
    keep-filtered tree WITHOUT the empty-ULG-list discard (counterexample
    below); the multi-LG branch does discard and sort as claimed. -/

theorem v2_rows_nil (storage : List RegRow) (ty : String) :
    v2_rows storage ty [] = [] := by
  unfold v2_rows
  induction storage with
  | nil => rfl
  | cons r t ih => simp [List.filter_cons, hasStr, ih]

theorem v2_lg_data_nil_nrs (storage : List RegRow) (codes : List String)
    (hn : v2_lg_nrs codes = []) : v2_lg_data storage codes = [] := by
  simp only [v2_lg_data]
  rw [hn, v2_rows_nil storage "LG"]
  rfl

theorem hasNonemptyUlgs_of_mem_foldl (pn : List String) :
    ∀ (ld : List (String × Json)) (acc : List Json),
      (∀ y ∈ acc, hasNonemptyUlgs y = true) →
      ∀ x ∈ ld.foldl (v2_filtered_step pn) acc, hasNonemptyUlgs x = true := by
  intro ld
  induction ld with
  | nil => intro acc hacc x hx; exact hacc x hx
  | cons p t ih =>
      intro acc hacc x hx
      refine ih (v2_filtered_step pn acc p) ?_ x hx
      intro y hy
      unfold v2_filtered_step at hy
      split_ifs at hy with h1 h2
      · exact hacc y hy
      · rcases List.mem_append.mp hy with hy | hy
        · exact hacc y hy
        · rcases List.mem_singleton.mp hy with rfl
          exact h2
      · exact hacc y hy

/-- C3 counterexample tree: the LG "00" of the example after keeping the
    code "009901" (ULG "99" does not exist): the ULG list is empty, yet the
    subtree is returned rather than discarded. -/
def exC3NotDiscarded : Json :=
  .obj [("lg-eigenschaften", .obj [("bezeichnung", .s "L00")]),
        ("ulg-liste", .obj [("ulg", .arr [])]),
        ("@_nr", .s "00")]

/-- C3 counterexample: with exactly one LG involved, v2 returns the filtered
    subtree even when its filtered ULG list is empty — the empty-ULG discard
    of the multi-LG collection loop is not applied on the single-LG path. -/
theorem v2_single_empty_lg_not_discarded :
    fetch_and_filter_lg_by_position_numbers_v2 (flattenLG exLG00) ["009901"]
        = exC3NotDiscarded
      ∧ hasNonemptyUlgs exC3NotDiscarded = false
      ∧ exC3NotDiscarded ≠ .obj [] := by decide

/-- C3 (amended): whenever the reconstruction involves at least two LG
    numbers, v2 returns a list of subtrees in which every entry has a
    non-empty filtered ULG list (empty ones are discarded) and which is
    sorted ascending by LG number; the single-LG claim holds only without
    the discard (see the counterexample). -/
theorem v2_output_shape (storage : List RegRow) (codes : List String)
    (h : 2 ≤ (v2_lg_data storage codes).length) :
    ∃ l, fetch_and_filter_lg_by_position_numbers_v2 storage codes = .arr l
      ∧ (∀ x ∈ l, hasNonemptyUlgs x = true)
      ∧ l.Pairwise (fun a b => lexLt (lgSortKey b) (lgSortKey a) = false) := by
  rcases codes with _ | ⟨c, cs⟩
  · rw [v2_lg_data_nil_nrs storage [] rfl] at h
    exact absurd h (by decide)
  · cases hg : (v2_lg_nrs (c :: cs)).isEmpty
    · unfold fetch_and_filter_lg_by_position_numbers_v2
      rw [if_neg (by simp : ¬((c :: cs).isEmpty = true)), if_neg (by simp [hg])]
      cases hld : v2_lg_data storage (c :: cs) with
      | nil => rw [hld] at h; exact absurd h (by decide)
      | cons a t =>
          obtain ⟨k1, v1⟩ := a
          cases t with
          | nil =>
              rw [hld] at h
              simp only [List.length_cons, List.length_nil] at h
              omega
          | cons b t2 =>
              obtain ⟨k2, v2⟩ := b
              refine ⟨isortK lgSortKey
                  (v2_filtered_lgs ((k1, v1) :: (k2, v2) :: t2) (c :: cs)), rfl, ?_,
                pairwise_isortK _ _⟩
              intro x hx
              exact hasNonemptyUlgs_of_mem_foldl (c :: cs) _ []
                (by intro y hy; cases hy) x ((mem_isortK _ _ _).mp hx)
    · exfalso
      have hnil : v2_lg_nrs (c :: cs) = [] := by
        cases hq : v2_lg_nrs (c :: cs) with
        | nil => rfl
        | cons z zs => rw [hq] at hg; cases hg
      rw [v2_lg_data_nil_nrs storage (c :: cs) hnil] at h
      exact absurd h (by decide)

/-- A second concrete LG for the multi-LG witness: LG "01" containing
    ULG "21" with Grundtext "01" (follow-position "A"). -/
def exGtB : Json :=
  .obj [("grundtext", .obj [("langtext", .s "GTB")]),
        ("folgeposition", .arr [exFp "A" "BA"]),
        ("@_nr", .s "01")]

def exUlgB : Json :=
  .obj [("ulg-eigenschaften", .obj [("bezeichnung", .s "U21")]),
        ("positionen", .obj [("grundtextnr", .arr [exGtB])]),
        ("@_nr", .s "21")]

def exLG01 : Json :=
  .obj [("lg-eigenschaften", .obj [("bezeichnung", .s "L01")]),
        ("ulg-liste", .obj [("ulg", .arr [exUlgB])]),
        ("@_nr", .s "01")]

theorem v2_output_shape_witness :
    2 ≤ (v2_lg_data (flattenLG exLG00 ++ flattenLG exLG01)
          ["001101", "012101A"]).length
    ∧ ∃ l, fetch_and_filter_lg_by_position_numbers_v2
          (flattenLG exLG00 ++ flattenLG exLG01) ["001101", "012101A"] = .arr l
        ∧ (∀ x ∈ l, hasNonemptyUlgs x = true)
        ∧ l.Pairwise (fun a b => lexLt (lgSortKey b) (lgSortKey a) = false) :=
  ⟨by decide,
   v2_output_shape (flattenLG exLG00 ++ flattenLG exLG01) ["001101", "012101A"]
     (by decide)⟩

/-! C2: reconstruction equivalence.  Infrastructure: filtering flat-mapped row
    lists, strict-ascending key chains, and no-op rewrites of well-formed
    nodes. -/

theorem filter_flatMap {α β : Type} (l : List α) (f : α → List β) (p : β → Bool) :
    (l.flatMap f).filter p = l.flatMap (fun a => (f a).filter p) := by
  induction l with
  | nil => rfl
  | cons a t ih =>
      rw [List.flatMap_cons, List.filter_append, ih, List.flatMap_cons]

theorem flatMap_eq_nil_of {α β : Type} (l : List α) (f : α → List β)
    (h : ∀ a ∈ l, f a = []) : l.flatMap f = [] := by
  induction l with
  | nil => rfl
  | cons a t ih =>
      rw [List.flatMap_cons, h a (List.mem_cons_self a t),
        ih (fun b hb => h b (List.mem_cons_of_mem a hb))]
      rfl

theorem filter_eq_nil_of {α : Type} (l : List α) (p : α → Bool)
    (h : ∀ a ∈ l, p a = false) : l.filter p = [] := by
  induction l with
  | nil => rfl
  | cons a t ih =>
      rw [List.filter_cons]
      rw [h a (List.mem_cons_self a t)]
      exact ih (fun b hb => h b (List.mem_cons_of_mem a hb))

theorem eq_nil_of_isEmpty {α : Type} (l : List α) (h : l.isEmpty = true) : l = [] := by
  cases l with
  | nil => rfl
  | cons a t => cases h

theorem flatMap_congr_left {α β : Type} (l : List α) (f g : α → List β)
    (h : ∀ a ∈ l, f a = g a) : l.flatMap f = l.flatMap g := by
  induction l with
  | nil => rfl
  | cons a t ih =>
      rw [List.flatMap_cons, List.flatMap_cons, h a (List.mem_cons_self a t),
        ih (fun b hb => h b (List.mem_cons_of_mem a hb))]

theorem json_eq_of_beq (a b : Json) (h : (a == b) = true) : a = b :=
  of_decide_eq_true h

/-- Filtering a flat-mapped list with a predicate that selects exactly the
    block of one element `u` (keys of distinct elements are distinct) keeps
    exactly `u`'s block, filtered by the residual predicate `q`. -/
theorem filter_flatMap_key {α β : Type} (key : α → String) (l : List α)
    (f : α → List β) (p q : β → Bool) (u : α)
    (hu : u ∈ l)
    (hPW : l.Pairwise (fun a b => key a ≠ key b))
    (hmatch : ∀ a ∈ l, ∀ b ∈ f a, p b = ((key a == key u) && q b)) :
    (l.flatMap f).filter p = (f u).filter q := by
  induction l with
  | nil => cases hu
  | cons a t ih =>
      rw [List.flatMap_cons, List.filter_append]
      rcases List.pairwise_cons.mp hPW with ⟨hhd, htl⟩
      rcases List.mem_cons.mp hu with rfl | hu'
      · have e1 : (f u).filter p = (f u).filter q := by
          apply List.filter_congr
          intro b hb
          rw [hmatch u (List.mem_cons_self u t) b hb]
          simp
        have e2 : (t.flatMap f).filter p = [] := by
          rw [filter_flatMap]
          apply flatMap_eq_nil_of
          intro a ha
          apply filter_eq_nil_of
          intro b hb
          rw [hmatch a (List.mem_cons_of_mem u ha) b hb,
            beq_eq_false_iff_ne.mpr (Ne.symm (hhd a ha)), Bool.false_and]
        rw [e1, e2, List.append_nil]
      · have e1 : (f a).filter p = [] := by
          apply filter_eq_nil_of
          intro b hb
          rw [hmatch a (List.mem_cons_self a t) b hb,
            beq_eq_false_iff_ne.mpr (hhd u hu'), Bool.false_and]
        rw [e1, List.nil_append]
        exact ih hu' htl (fun a' ha' => hmatch a' (List.mem_cons_of_mem a ha'))

theorem chainStrictAsc_chain' (l : List String) (h : chainStrictAsc l = true) :
    l.Chain' (fun a b => lexLt a b = true) := by
  induction l with
  | nil => exact List.chain'_nil
  | cons a t ih =>
      cases t with
      | nil => simp
      | cons b t2 =>
          simp only [chainStrictAsc, Bool.and_eq_true] at h
          exact List.chain'_cons.mpr ⟨h.1, ih h.2⟩

theorem pairwise_of_chainStrictAsc (l : List String) (h : chainStrictAsc l = true) :
    l.Pairwise (fun a b => lexLt a b = true) := by
  induction l with
  | nil => exact List.Pairwise.nil
  | cons a t ih =>
      cases t with
      | nil => simp
      | cons b t2 =>
          simp only [chainStrictAsc, Bool.and_eq_true] at h
          have ihp := ih h.2
          refine List.pairwise_cons.mpr ⟨?_, ihp⟩
          intro x hx
          rcases List.mem_cons.mp hx with rfl | hx'
          · exact h.1
          · exact lexLt_trans a b x h.1 ((List.pairwise_cons.mp ihp).1 x hx')

theorem lexLt_ne (a b : String) (h : lexLt a b = true) : a ≠ b := by
  intro he
  rw [he] at h
  simp [lexLt, lexLtL_irrefl] at h

theorem pairwise_key_ne {α : Type} (key : α → String) (l : List α)
    (h : chainStrictAsc (l.map key) = true) :
    l.Pairwise (fun a b => key a ≠ key b) := by
  have hp := pairwise_of_chainStrictAsc _ h
  rw [List.pairwise_map] at hp
  exact hp.imp (fun hab => lexLt_ne _ _ hab)

theorem chain'_key_of_asc {α : Type} (key : α → String) (l : List α)
    (h : chainStrictAsc (l.map key) = true) :
    l.Chain' (fun a b => lexLt (key a) (key b) = true) := by
  have hc := chainStrictAsc_chain' _ h
  exact (List.chain'_map key).mp hc

theorem map_id_fun {α : Type} (l : List α) : l.map (fun a => a) = l := by
  induction l with
  | nil => rfl
  | cons a t ih => rw [List.map_cons, ih]

theorem jget_str_eq (o : Option Json) (h : isStrVal o = true) :
    o = some (.s (pyStr o)) := by
  match o, h with
  | some (.s v), _ => rfl

theorem jget_obj_eq (o : Option Json) (h : isObjVal o = true) :
    ∃ fs, o = some (.obj fs) := by
  match o, h with
  | some (.obj fs), _ => exact ⟨fs, rfl⟩

theorem arrVal_eq (o : Option Json) (h : isArrVal o = true) :
    o = some (.arr (jitems (o.getD (.arr [])))) := by
  match o, h with
  | some (.arr l), _ => rfl

theorem opt_eq_some_getD (o : Option Json) (d : Json) (h : o.isSome = true) :
    o = some (o.getD d) := by
  match o, h with
  | some v, _ => rfl

theorem jhasK_of_objVal (j : Json) (k : String) (h : isObjVal (jget j k) = true) :
    jhasK j k = true := by
  obtain ⟨fs, he⟩ := jget_obj_eq _ h
  unfold jhasK
  rw [he]
  rfl

/-- The per-type row groups of a flattened LG tree, in storage order. -/
def ulgRows (t : Json) : List RegRow :=
  (srcUlgList t).map (ulgRow (nrOf t))

def gtRows (t : Json) : List RegRow :=
  (srcUlgList t).flatMap (fun u => (gtList u).map (gtRow (nrOf t) (nrOf u)))

def fpRows (t : Json) : List RegRow :=
  (srcUlgList t).flatMap (fun u =>
    (gtList u).flatMap (fun g => (fpList g).map (fpRow (nrOf t) (nrOf u) (nrOf g))))

theorem filter_fpMap_ne (L : List String) (nrT uN gN : String) (l : List Json)
    (ty : String) (hne : (("Folgeposition" : String) == ty) = false) :
    (l.map (fpRow nrT uN gN)).filter
      (fun r => r.entity_type == ty && hasStr L r.lg_nr) = [] := by
  apply filter_eq_nil_of
  intro b hb
  rcases List.mem_map.mp hb with ⟨fp, _, rfl⟩
  simp [fpRow, hne]

theorem filter_fpMap_self (L : List String) (nrT uN gN : String) (l : List Json)
    (hm : hasStr L nrT = true) :
    (l.map (fpRow nrT uN gN)).filter
        (fun r => r.entity_type == "Folgeposition" && hasStr L r.lg_nr)
      = l.map (fpRow nrT uN gN) := by
  apply List.filter_eq_self.mpr
  intro b hb
  rcases List.mem_map.mp hb with ⟨fp, _, rfl⟩
  simp [fpRow, hm]

theorem filter_gtFlat_ne (L : List String) (nrT uN : String) (gl : List Json)
    (ty : String) (h1 : (("Grundtext" : String) == ty) = false)
    (h2 : (("Folgeposition" : String) == ty) = false) :
    (gl.flatMap (fun g =>
        gtRow nrT uN g :: (fpList g).map (fpRow nrT uN (nrOf g)))).filter
      (fun r => r.entity_type == ty && hasStr L r.lg_nr) = [] := by
  rw [filter_flatMap]
  apply flatMap_eq_nil_of
  intro g _
  simp [List.filter_cons, gtRow, h1,
    filter_fpMap_ne L nrT uN (nrOf g) (fpList g) ty h2]

theorem filter_gtFlat_gt (L : List String) (nrT uN : String) (gl : List Json)
    (hm : hasStr L nrT = true) :
    (gl.flatMap (fun g =>
        gtRow nrT uN g :: (fpList g).map (fpRow nrT uN (nrOf g)))).filter
        (fun r => r.entity_type == "Grundtext" && hasStr L r.lg_nr)
      = gl.map (gtRow nrT uN) := by
  rw [filter_flatMap]
  have e : ∀ g : Json, (gtRow nrT uN g :: (fpList g).map (fpRow nrT uN (nrOf g))).filter
      (fun r => r.entity_type == "Grundtext" && hasStr L r.lg_nr) = [gtRow nrT uN g] := by
    intro g
    simp [List.filter_cons, gtRow, hm,
      filter_fpMap_ne L nrT uN (nrOf g) (fpList g) "Grundtext" (by decide)]
  induction gl with
  | nil => rfl
  | cons g gl ih =>
      simp only [List.flatMap_cons]
      rw [e g, ih, List.map_cons]
      rfl

theorem filter_gtFlat_fp (L : List String) (nrT uN : String) (gl : List Json)
    (hm : hasStr L nrT = true) :
    (gl.flatMap (fun g =>
        gtRow nrT uN g :: (fpList g).map (fpRow nrT uN (nrOf g)))).filter
        (fun r => r.entity_type == "Folgeposition" && hasStr L r.lg_nr)
      = gl.flatMap (fun g => (fpList g).map (fpRow nrT uN (nrOf g))) := by
  rw [filter_flatMap]
  have e : ∀ g : Json, (gtRow nrT uN g :: (fpList g).map (fpRow nrT uN (nrOf g))).filter
        (fun r => r.entity_type == "Folgeposition" && hasStr L r.lg_nr)
      = (fpList g).map (fpRow nrT uN (nrOf g)) := by
    intro g
    simp [List.filter_cons, gtRow,
      (by decide : (("Grundtext" : String) == "Folgeposition") = false),
      filter_fpMap_self L nrT uN (nrOf g) (fpList g) hm]
  induction gl with
  | nil => rfl
  | cons g gl ih =>
      simp only [List.flatMap_cons]
      rw [e g, ih]

theorem filter_uFlat_ne (L : List String) (nrT : String) (ul : List Json)
    (ty : String) (h1 : (("ULG" : String) == ty) = false)
    (h2 : (("Grundtext" : String) == ty) = false)
    (h3 : (("Folgeposition" : String) == ty) = false) :
    (ul.flatMap (fun u => ulgRow nrT u :: (gtList u).flatMap (fun g =>
        gtRow nrT (nrOf u) g :: (fpList g).map (fpRow nrT (nrOf u) (nrOf g))))).filter
      (fun r => r.entity_type == ty && hasStr L r.lg_nr) = [] := by
  rw [filter_flatMap]
  apply flatMap_eq_nil_of
  intro u _
  simp [List.filter_cons, ulgRow, h1,
    filter_gtFlat_ne L nrT (nrOf u) (gtList u) ty h2 h3]

theorem filter_uFlat_ulg (L : List String) (nrT : String) (ul : List Json)
    (hm : hasStr L nrT = true) :
    (ul.flatMap (fun u => ulgRow nrT u :: (gtList u).flatMap (fun g =>
        gtRow nrT (nrOf u) g :: (fpList g).map (fpRow nrT (nrOf u) (nrOf g))))).filter
        (fun r => r.entity_type == "ULG" && hasStr L r.lg_nr)
      = ul.map (ulgRow nrT) := by
  rw [filter_flatMap]
  have e : ∀ u : Json, (ulgRow nrT u :: (gtList u).flatMap (fun g =>
        gtRow nrT (nrOf u) g :: (fpList g).map (fpRow nrT (nrOf u) (nrOf g)))).filter
      (fun r => r.entity_type == "ULG" && hasStr L r.lg_nr) = [ulgRow nrT u] := by
    intro u
    simp [List.filter_cons, ulgRow, hm,
      filter_gtFlat_ne L nrT (nrOf u) (gtList u) "ULG" (by decide) (by decide)]
  induction ul with
  | nil => rfl
  | cons u ul ih =>
      simp only [List.flatMap_cons]
      rw [e u, ih, List.map_cons]
      rfl

theorem filter_uFlat_gt (L : List String) (nrT : String) (ul : List Json)
    (hm : hasStr L nrT = true) :
    (ul.flatMap (fun u => ulgRow nrT u :: (gtList u).flatMap (fun g =>
        gtRow nrT (nrOf u) g :: (fpList g).map (fpRow nrT (nrOf u) (nrOf g))))).filter
        (fun r => r.entity_type == "Grundtext" && hasStr L r.lg_nr)
      = ul.flatMap (fun u => (gtList u).map (gtRow nrT (nrOf u))) := by
  rw [filter_flatMap]
  have e : ∀ u : Json, (ulgRow nrT u :: (gtList u).flatMap (fun g =>
        gtRow nrT (nrOf u) g :: (fpList g).map (fpRow nrT (nrOf u) (nrOf g)))).filter
        (fun r => r.entity_type == "Grundtext" && hasStr L r.lg_nr)
      = (gtList u).map (gtRow nrT (nrOf u)) := by
    intro u
    simp [List.filter_cons, ulgRow,
      (by decide : (("ULG" : String) == "Grundtext") = false),
      filter_gtFlat_gt L nrT (nrOf u) (gtList u) hm]
  induction ul with
  | nil => rfl
  | cons u ul ih =>
      simp only [List.flatMap_cons]
      rw [e u, ih]

theorem filter_uFlat_fp (L : List String) (nrT : String) (ul : List Json)
    (hm : hasStr L nrT = true) :
    (ul.flatMap (fun u => ulgRow nrT u :: (gtList u).flatMap (fun g =>
        gtRow nrT (nrOf u) g :: (fpList g).map (fpRow nrT (nrOf u) (nrOf g))))).filter
        (fun r => r.entity_type == "Folgeposition" && hasStr L r.lg_nr)
      = ul.flatMap (fun u => (gtList u).flatMap (fun g =>
          (fpList g).map (fpRow nrT (nrOf u) (nrOf g)))) := by
  rw [filter_flatMap]
  have e : ∀ u : Json, (ulgRow nrT u :: (gtList u).flatMap (fun g =>
        gtRow nrT (nrOf u) g :: (fpList g).map (fpRow nrT (nrOf u) (nrOf g)))).filter
        (fun r => r.entity_type == "Folgeposition" && hasStr L r.lg_nr)
      = (gtList u).flatMap (fun g => (fpList g).map (fpRow nrT (nrOf u) (nrOf g))) := by
    intro u
    simp [List.filter_cons, ulgRow,
      (by decide : (("ULG" : String) == "Folgeposition") = false),
      filter_gtFlat_fp L nrT (nrOf u) (gtList u) hm]
  induction ul with
  | nil => rfl
  | cons u ul ih =>
      simp only [List.flatMap_cons]
      rw [e u, ih]

theorem some_beq_some (a b : String) : ((some a == some b) : Bool) = (a == b) := rfl

theorem wfGt_parts (g : Json) (h : wfGt g = true) :
    isStrVal (jget g "@_nr") = true ∧ isArrVal (jget g "folgeposition") = true
      ∧ (fpList g).all wfFp = true
      ∧ chainStrictAsc ((fpList g).map ftnrOf) = true
      ∧ jhasK g "grundtext" = true ∧ (upList g).isEmpty = true
      ∧ (_preserve_json_order g == g) = true := by
  simp only [wfGt, Bool.and_eq_true] at h
  exact ⟨h.1.1.1.1.1.1, h.1.1.1.1.1.2, h.1.1.1.1.2, h.1.1.1.2, h.1.1.2, h.1.2, h.2⟩

theorem wfUlg_parts (u : Json) (h : wfUlg u = true) :
    isStrVal (jget u "@_nr") = true ∧ isObjVal (jget u "positionen") = true
      ∧ isArrVal (jget (jgetD u "positionen" (.obj [])) "grundtextnr") = true
      ∧ (gtList u).all wfGt = true
      ∧ chainStrictAsc ((gtList u).map nrOf) = true
      ∧ (_preserve_json_order u == u) = true := by
  simp only [wfUlg, Bool.and_eq_true] at h
  exact ⟨h.1.1.1.1.1, h.1.1.1.1.2, h.1.1.1.2, h.1.1.2, h.1.2, h.2⟩

theorem wfLG_parts (t : Json) (h : wfLG t = true) :
    isStrVal (jget t "@_nr") = true ∧ isObjVal (jget t "ulg-liste") = true
      ∧ isArrVal (jget (jgetD t "ulg-liste" (.obj [])) "ulg") = true
      ∧ (srcUlgList t).all wfUlg = true
      ∧ chainStrictAsc ((srcUlgList t).map nrOf) = true
      ∧ (_preserve_json_order t == t) = true := by
  simp only [wfLG, Bool.and_eq_true] at h
  exact ⟨h.1.1.1.1.1, h.1.1.1.1.2, h.1.1.1.2, h.1.1.2, h.1.2, h.2⟩

/-- On a well-formed tree the stored rows coincide with the raw per-node rows:
    canonicalization is the identity on every node, every Grundtext is split
    (so the conditional Grundtext/Folgeposition emission always fires) and
    there are no UngeteiltePosition rows. -/
theorem flattenLG_eq_raw (t : Json) (hwf : wfLG t = true) :
    flattenLG t
      = lgRow t :: (srcUlgList t).flatMap (fun u =>
          ulgRow (nrOf t) u :: (gtList u).flatMap (fun g =>
            gtRow (nrOf t) (nrOf u) g
              :: (fpList g).map (fpRow (nrOf t) (nrOf u) (nrOf g)))) := by
  obtain ⟨-, -, -, hallU, -, hcanT⟩ := wfLG_parts t hwf
  unfold flattenLG lgRow
  rw [json_eq_of_beq _ _ hcanT]
  refine congrArg (List.cons _) ?_
  apply flatMap_congr_left
  intro u hu
  have hwfu := List.all_eq_true.mp hallU u hu
  obtain ⟨-, -, -, hallG, -, hcanU⟩ := wfUlg_parts u hwfu
  unfold ulgRow
  rw [json_eq_of_beq _ _ hcanU]
  refine congrArg (List.cons _) ?_
  apply flatMap_congr_left
  intro g hg
  have hwfg := List.all_eq_true.mp hallG g hg
  obtain ⟨-, -, hallF, -, hkey, hup, hcanG⟩ := wfGt_parts g hwfg
  rw [eq_nil_of_isEmpty (upList g) hup, List.map_nil, List.nil_append, if_pos hkey]
  unfold gtRow
  rw [json_eq_of_beq _ _ hcanG]
  refine congrArg (List.cons _) ?_
  apply List.map_congr_left
  intro fp hfp
  have hwff := List.all_eq_true.mp hallF fp hfp
  have hcanF : _preserve_json_order fp = fp := by
    simp only [wfFp, Bool.and_eq_true] at hwff
    exact json_eq_of_beq _ _ hwff.2
  unfold fpRow
  rw [hcanF]

theorem v2_rows_flatten_LG (t : Json) (L : List String) (hwf : wfLG t = true)
    (hm : hasStr L (nrOf t) = true) :
    v2_rows (flattenLG t) "LG" L = [lgRow t] := by
  unfold v2_rows
  rw [flattenLG_eq_raw t hwf]
  simp [List.filter_cons, lgRow, hm,
    filter_uFlat_ne L (nrOf t) (srcUlgList t) "LG" (by decide) (by decide) (by decide)]

theorem v2_rows_flatten_ULG (t : Json) (L : List String) (hwf : wfLG t = true)
    (hm : hasStr L (nrOf t) = true) :
    v2_rows (flattenLG t) "ULG" L = ulgRows t := by
  unfold v2_rows ulgRows
  rw [flattenLG_eq_raw t hwf]
  simp [List.filter_cons, lgRow,
    (by decide : (("LG" : String) == "ULG") = false),
    filter_uFlat_ulg L (nrOf t) (srcUlgList t) hm]

theorem v2_rows_flatten_GT (t : Json) (L : List String) (hwf : wfLG t = true)
    (hm : hasStr L (nrOf t) = true) :
    v2_rows (flattenLG t) "Grundtext" L = gtRows t := by
  unfold v2_rows gtRows
  rw [flattenLG_eq_raw t hwf]
  simp [List.filter_cons, lgRow,
    (by decide : (("LG" : String) == "Grundtext") = false),
    filter_uFlat_gt L (nrOf t) (srcUlgList t) hm]

theorem v2_rows_flatten_FP (t : Json) (L : List String) (hwf : wfLG t = true)
    (hm : hasStr L (nrOf t) = true) :
    v2_rows (flattenLG t) "Folgeposition" L = fpRows t := by
  unfold v2_rows fpRows
  rw [flattenLG_eq_raw t hwf]
  simp [List.filter_cons, lgRow,
    (by decide : (("LG" : String) == "Folgeposition") = false),
    filter_uFlat_fp L (nrOf t) (srcUlgList t) hm]

/-- Writing back each Folgeposition's own letter is the identity on the
    Folgeposition list. -/
theorem map_jset_ftnr_id (l : List Json) (h : l.all wfFp = true) :
    l.map (fun fp => jset fp "@_ftnr" (optStr (some (ftnrOf fp)))) = l := by
  induction l with
  | nil => rfl
  | cons fp l ih =>
      rw [List.all_cons, Bool.and_eq_true] at h
      have h1 : isStrVal (jget fp "@_ftnr") = true := by
        have hh := h.1
        simp only [wfFp, Bool.and_eq_true] at hh
        exact hh.1
      rw [List.map_cons, ih h.2]
      exact congrArg (fun x => x :: l) (jset_same fp _ _ (jget_str_eq _ h1))

/-- The Folgeposition group selected for one well-formed Grundtext is exactly
    its own Folgeposition list. -/
theorem v2_fps_id (t : Json) (hwf : wfLG t = true) (u : Json) (hu : u ∈ srcUlgList t)
    (g : Json) (hg : g ∈ gtList u) :
    v2_fps_by_gt (isortK (fun r => r.position_nr.getD "") (fpRows t))
        (nrOf t) (some (nrOf u)) (some (nrOf g))
      = fpList g := by
  obtain ⟨-, -, -, hallU, hascU, -⟩ := wfLG_parts t hwf
  have hwfu : wfUlg u = true := List.all_eq_true.mp hallU u hu
  obtain ⟨-, -, -, hallG, hascG, -⟩ := wfUlg_parts u hwfu
  have hwfg : wfGt g = true := List.all_eq_true.mp hallG g hg
  obtain ⟨-, -, hallF, hascF, -, -, -⟩ := wfGt_parts g hwfg
  unfold v2_fps_by_gt fpRows
  rw [filter_isortK]
  rw [filter_flatMap_key nrOf (srcUlgList t)
    (fun u => (gtList u).flatMap (fun g => (fpList g).map (fpRow (nrOf t) (nrOf u) (nrOf g))))
    (fun r => r.lg_nr == nrOf t && r.ulg_nr == some (nrOf u)
      && r.grundtext_nr == some (nrOf g))
    (fun r => r.grundtext_nr == some (nrOf g)) u hu
    (pairwise_key_ne nrOf _ hascU)
    (by
      intro a ha b hb
      rcases List.mem_flatMap.mp hb with ⟨g', hg', hb'⟩
      rcases List.mem_map.mp hb' with ⟨fp, hfp, rfl⟩
      simp [fpRow, some_beq_some])]
  rw [filter_flatMap_key nrOf (gtList u)
    (fun g' => (fpList g').map (fpRow (nrOf t) (nrOf u) (nrOf g')))
    (fun r => r.grundtext_nr == some (nrOf g)) (fun _ => true) g hg
    (pairwise_key_ne nrOf _ hascG)
    (by
      intro a ha b hb
      rcases List.mem_map.mp hb with ⟨fp, hfp, rfl⟩
      simp [fpRow, some_beq_some])]
  rw [show ((fpList g).map (fpRow (nrOf t) (nrOf u) (nrOf g))).filter (fun _ => true)
      = (fpList g).map (fpRow (nrOf t) (nrOf u) (nrOf g))
    from List.filter_eq_self.mpr (fun _ _ => rfl)]
  have hmap : ((fpList g).map (fpRow (nrOf t) (nrOf u) (nrOf g))).map
      (fun r => r.position_nr.getD "") = (fpList g).map ftnrOf := by
    rw [List.map_map]
    exact List.map_congr_left (fun fp _ => rfl)
  rw [isortK_eq_self (fun r => r.position_nr.getD "")
    ((fpList g).map (fpRow (nrOf t) (nrOf u) (nrOf g)))
    (chain'_key_of_asc _ _ (by rw [hmap]; exact hascF))]
  rw [List.map_map]
  exact map_jset_ftnr_id (fpList g) hallF

theorem v2_build_gt_id (fpRecs : List RegRow) (nrT uN : String) (g : Json)
    (hg : wfGt g = true)
    (hfps : v2_fps_by_gt fpRecs nrT (some uN) (some (nrOf g)) = fpList g) :
    v2_build_gt fpRecs (gtRow nrT uN g) = g := by
  obtain ⟨hs, ha, -, -, -, -, -⟩ := wfGt_parts g hg
  show jset (jset g "@_nr" (optStr (some (nrOf g)))) "folgeposition"
      (.arr (v2_fps_by_gt fpRecs nrT (some uN) (some (nrOf g)))) = g
  rw [hfps]
  rw [jset_same g "@_nr" (optStr (some (nrOf g))) (jget_str_eq _ hs)]
  exact jset_same g "folgeposition" (.arr (fpList g)) (arrVal_eq _ ha)

/-- The Grundtext group selected for one well-formed ULG rebuilds exactly its
    own Grundtext list. -/
theorem v2_gts_id (t : Json) (hwf : wfLG t = true) (u : Json) (hu : u ∈ srcUlgList t) :
    v2_gts_by_ulg (isortK (fun r => r.grundtext_nr.getD "") (gtRows t))
        (isortK (fun r => r.position_nr.getD "") (fpRows t)) (nrOf t) (some (nrOf u))
      = gtList u := by
  obtain ⟨-, -, -, hallU, hascU, -⟩ := wfLG_parts t hwf
  have hwfu : wfUlg u = true := List.all_eq_true.mp hallU u hu
  obtain ⟨-, -, -, hallG, hascG, -⟩ := wfUlg_parts u hwfu
  unfold v2_gts_by_ulg gtRows
  rw [filter_isortK]
  rw [filter_flatMap_key nrOf (srcUlgList t)
    (fun u => (gtList u).map (gtRow (nrOf t) (nrOf u)))
    (fun r => r.lg_nr == nrOf t && r.ulg_nr == some (nrOf u))
    (fun _ => true) u hu
    (pairwise_key_ne nrOf _ hascU)
    (by
      intro a ha b hb
      rcases List.mem_map.mp hb with ⟨g', hg', rfl⟩
      simp [gtRow, some_beq_some])]
  rw [show ((gtList u).map (gtRow (nrOf t) (nrOf u))).filter (fun _ => true)
      = (gtList u).map (gtRow (nrOf t) (nrOf u))
    from List.filter_eq_self.mpr (fun _ _ => rfl)]
  have hmap : ((gtList u).map (gtRow (nrOf t) (nrOf u))).map
      (fun r => r.grundtext_nr.getD "") = (gtList u).map nrOf := by
    rw [List.map_map]
    exact List.map_congr_left (fun g' _ => rfl)
  rw [isortK_eq_self (fun r => r.grundtext_nr.getD "")
    ((gtList u).map (gtRow (nrOf t) (nrOf u)))
    (chain'_key_of_asc _ _ (by rw [hmap]; exact hascG))]
  rw [List.map_map]
  have e : (gtList u).map
        (v2_build_gt (isortK (fun r => r.position_nr.getD "") (fpRows t))
          ∘ gtRow (nrOf t) (nrOf u))
      = (gtList u).map (fun a => a) := by
    apply List.map_congr_left
    intro g hgm
    exact v2_build_gt_id _ _ _ g (List.all_eq_true.mp hallG g hgm)
      (v2_fps_id t hwf u hu g hgm)
  rw [e, map_id_fun]

theorem v2_build_ulg_id (gtRecs fpRecs : List RegRow) (nrT : String) (u : Json)
    (hwfu : wfUlg u = true)
    (hgts : v2_gts_by_ulg gtRecs fpRecs nrT (some (nrOf u)) = gtList u) :
    v2_build_ulg gtRecs fpRecs (ulgRow nrT u) = u := by
  obtain ⟨hs, ho, ha, -, -, -⟩ := wfUlg_parts u hwfu
  simp only [v2_build_ulg, ulgRow, Option.getD_some]
  have e1 : jset u "@_nr" (optStr (some (nrOf u))) = u :=
    jset_same _ _ _ (jget_str_eq _ hs)
  rw [e1, if_pos (jhasK_of_objVal u "positionen" ho), hgts]
  have e2 := jset_same (jgetD u "positionen" (.obj [])) "grundtextnr"
    (.arr (gtList u)) (arrVal_eq _ ha)
  rw [e2]
  exact jset_same u "positionen" (jgetD u "positionen" (.obj []))
    (opt_eq_some_getD _ _ (by obtain ⟨fs, he⟩ := jget_obj_eq _ ho; rw [he]; rfl))

/-- The ULG group of the (single) LG rebuilds exactly the original ULG
    list. -/
theorem v2_ulgs_id (t : Json) (hwf : wfLG t = true) :
    v2_ulgs_by_lg (isortK (fun r => r.ulg_nr.getD "") (ulgRows t))
        (isortK (fun r => r.grundtext_nr.getD "") (gtRows t))
        (isortK (fun r => r.position_nr.getD "") (fpRows t)) (nrOf t)
      = srcUlgList t := by
  obtain ⟨-, -, -, hallU, hascU, -⟩ := wfLG_parts t hwf
  unfold v2_ulgs_by_lg
  rw [filter_isortK]
  have e0 : (ulgRows t).filter (fun r => r.lg_nr == nrOf t) = ulgRows t := by
    apply List.filter_eq_self.mpr
    intro r hr
    rcases List.mem_map.mp hr with ⟨u, _, rfl⟩
    simp [ulgRow]
  rw [e0]
  have hmap : (ulgRows t).map (fun r => r.ulg_nr.getD "") = (srcUlgList t).map nrOf := by
    unfold ulgRows
    rw [List.map_map]
    exact List.map_congr_left (fun u _ => rfl)
  rw [isortK_eq_self (fun r => r.ulg_nr.getD "") (ulgRows t)
    (chain'_key_of_asc _ _ (by rw [hmap]; exact hascU))]
  unfold ulgRows
  rw [List.map_map]
  have e : (srcUlgList t).map
        (v2_build_ulg (isortK (fun r => r.grundtext_nr.getD "") (gtRows t))
          (isortK (fun r => r.position_nr.getD "") (fpRows t)) ∘ ulgRow (nrOf t))
      = (srcUlgList t).map (fun a => a) := by
    apply List.map_congr_left
    intro u hu
    exact v2_build_ulg_id _ _ _ u (List.all_eq_true.mp hallU u hu) (v2_gts_id t hwf u hu)
  rw [e, map_id_fun]

theorem v2_build_lg_id (uRecs gRecs fRecs : List RegRow) (t : Json)
    (hwf : wfLG t = true)
    (hulgs : v2_ulgs_by_lg uRecs gRecs fRecs (nrOf t) = srcUlgList t) :
    v2_build_lg uRecs gRecs fRecs (lgRow t) = t := by
  obtain ⟨hs, ho, ha, -, -, -⟩ := wfLG_parts t hwf
  simp only [v2_build_lg, lgRow, Option.getD_some]
  have e1 : jset t "@_nr" (.s (nrOf t)) = t := jset_same _ _ _ (jget_str_eq _ hs)
  rw [e1, if_pos (jhasK_of_objVal t "ulg-liste" ho), hulgs]
  have e2 := jset_same (jgetD t "ulg-liste" (.obj [])) "ulg"
    (.arr (srcUlgList t)) (arrVal_eq _ ha)
  rw [e2]
  exact jset_same t "ulg-liste" (jgetD t "ulg-liste" (.obj []))
    (opt_eq_some_getD _ _ (by obtain ⟨fs, he⟩ := jget_obj_eq _ ho; rw [he]; rfl))

/-- On the flattened rows of a well-formed LG tree, the reconstruction step of
    v2 rebuilds exactly the original tree under its own LG number. -/
theorem v2_lg_data_flatten (t : Json) (codes : List String) (hwf : wfLG t = true)
    (hm : hasStr (v2_lg_nrs codes) (nrOf t) = true) :
    v2_lg_data (flattenLG t) codes = [(nrOf t, t)] := by
  simp only [v2_lg_data]
  rw [v2_rows_flatten_LG t _ hwf hm, v2_rows_flatten_ULG t _ hwf hm,
    v2_rows_flatten_GT t _ hwf hm, v2_rows_flatten_FP t _ hwf hm]
  simp only [List.foldl_cons, List.foldl_nil]
  rw [v2_build_lg_id _ _ _ t hwf (v2_ulgs_id t hwf)]
  rfl

/-- The code addresses the LG `t`: it parses against the shared position
    grammar and its LG capture group equals `t`'s own number. -/
def codeInLG (t : Json) (nr : String) : Bool :=
  match matchFullNr nr with
  | some g => g.1 == nrOf t
  | none => false

theorem v2_lg_nrs_const (t : Json) (codes : List String)
    (hall : codes.all (codeInLG t) = true) :
    v2_lg_nrs codes = codes.map (fun _ => nrOf t) := by
  induction codes with
  | nil => rfl
  | cons c cs ih =>
      rw [List.all_cons, Bool.and_eq_true] at hall
      have h1 := hall.1
      cases hmc : matchFullNr c with
      | none =>
          exfalso
          unfold codeInLG at h1
          simp only [hmc] at h1
          exact Bool.noConfusion h1
      | some g =>
          have hg : g.1 = nrOf t := by
            unfold codeInLG at h1
            simp only [hmc] at h1
            exact eq_of_beq h1
          have hv : validate_position_number_format c = true := by
            unfold validate_position_number_format
            rw [hmc]
            rfl
          have hf : (if validate_position_number_format c
              then (get_position_info c).map (fun i => i.lg_nr) else none)
              = some (nrOf t) := by
            rw [if_pos hv, get_position_info, hmc]
            show some g.1 = some (nrOf t)
            rw [hg]
          unfold v2_lg_nrs
          simp only [List.filterMap_cons, hf]
          show nrOf t :: v2_lg_nrs cs = _
          rw [ih hall.2, List.map_cons]

/-- C2 (amended): on a well-formed LG tree — sibling numbers and letters
    strictly ascending, structural keys present, every Grundtext split (its
    "grundtext" key present, no "ungeteilteposition" entries) and every node a
    fixed point of `_preserve_json_order` (equivalently: authored in the
    canonical key order in which `process_and_store_data` stores it) — and a
    non-empty code set all of whose codes parse and name that tree's LG
    number, v2 applied to the rows the ingestion stores for that tree returns
    a tree EQUAL to the keep filter applied to the original tree — in
    particular equal after canonicalization.  Without these hypotheses the
    claim fails: v2 re-sorts sibling lists by number while the keep filter
    preserves authoring order, and canonicalization does not reorder lists
    (see the counterexample); likewise a non-canonical tree comes back
    key-reordered and an unsplit Grundtext is dropped by v2 but kept by the
    keep filter. -/
theorem v2_reconstruction_equivalence (t : Json) (codes : List String)
    (hwf : wfLG t = true) (hne : codes.isEmpty = false)
    (hall : codes.all (codeInLG t) = true) :
    fetch_and_filter_lg_by_position_numbers_v2 (flattenLG t) codes
        = filter_json_by_full_nr t codes
      ∧ _preserve_json_order
          (fetch_and_filter_lg_by_position_numbers_v2 (flattenLG t) codes)
        = _preserve_json_order (filter_json_by_full_nr t codes) := by
  rcases codes with _ | ⟨c, cs⟩
  · exact Bool.noConfusion hne
  · have hnrs := v2_lg_nrs_const t (c :: cs) hall
    have hm : hasStr (v2_lg_nrs (c :: cs)) (nrOf t) = true := by
      rw [hnrs, List.map_cons]
      simp [hasStr]
    have hdata := v2_lg_data_flatten t (c :: cs) hwf hm
    have heq : fetch_and_filter_lg_by_position_numbers_v2 (flattenLG t) (c :: cs)
        = filter_json_by_full_nr t (c :: cs) := by
      unfold fetch_and_filter_lg_by_position_numbers_v2
      rw [if_neg (by simp), if_neg (by rw [hnrs, List.map_cons]; simp)]
      rw [hdata]
    exact ⟨heq, congrArg _ heq⟩

/-- C2 counterexample data: the example LG except that Grundtext "01" lists
    its follow-positions in authoring order "B" before "A". -/
def exGt01R : Json :=
  .obj [("grundtext", .obj [("langtext", .s "GT01")]),
        ("folgeposition", .arr [exFp "B" "SB", exFp "A" "SA"]),
        ("@_nr", .s "01")]

def exUlgR : Json :=
  .obj [("ulg-eigenschaften", .obj [("bezeichnung", .s "U11")]),
        ("positionen", .obj [("grundtextnr", .arr [exGt01R])]),
        ("@_nr", .s "11")]

def exLGR : Json :=
  .obj [("lg-eigenschaften", .obj [("bezeichnung", .s "L00")]),
        ("ulg-liste", .obj [("ulg", .arr [exUlgR])]),
        ("@_nr", .s "00")]

/-- C2 counterexample: a single-LG code set on a tree whose follow-positions
    are stored in non-ascending authoring order.  The reconstruction sorts the
    follow-position list, the keep filter preserves it, and canonicalization
    does not reorder lists, so the two results differ even after
    canonicalization. -/
theorem v2_keep_order_divergence :
    (["001101"] : List String).all (codeInLG exLGR) = true
    ∧ _preserve_json_order
        (fetch_and_filter_lg_by_position_numbers_v2 (flattenLG exLGR) ["001101"])
      ≠ _preserve_json_order (filter_json_by_full_nr exLGR ["001101"]) := by decide

theorem v2_reconstruction_equivalence_witness :
    wfLG exLG00 = true
    ∧ (["001101", "001103A"] : List String).isEmpty = false
    ∧ (["001101", "001103A"] : List String).all (codeInLG exLG00) = true
    ∧ (fetch_and_filter_lg_by_position_numbers_v2 (flattenLG exLG00)
          ["001101", "001103A"]
        = filter_json_by_full_nr exLG00 ["001101", "001103A"]
      ∧ _preserve_json_order
          (fetch_and_filter_lg_by_position_numbers_v2 (flattenLG exLG00)
            ["001101", "001103A"])
        = _preserve_json_order (filter_json_by_full_nr exLG00 ["001101", "001103A"])) :=
  ⟨by decide, by decide, by decide,
   v2_reconstruction_equivalence exLG00 ["001101", "001103A"]
     (by decide) (by decide) (by decide)⟩

end Ava
